import Mathlib

/-!
Verification development for the `sql-batcher` repository.

The Python modules under `src/sql_batcher/` are shallowly embedded here:
pure functions become Lean functions, mutable objects become explicit state
records, raised exceptions become `Except` results, and traces of adapter /
hook / callback invocations are recorded as explicit event lists.  Machine
integers are modelled as `Nat`/`Int` (Python integers are unbounded), Python
`float` parameters that only ever hold exact decimal configuration values are
modelled as `Rat`, and `len(s.encode("utf-8"))` as `String.utf8ByteSize`.
Character-level helpers mirror CPython semantics on the ASCII inputs the
library manipulates (Python's `str` methods additionally treat some non-ASCII
code points as whitespace / word characters; none of the statements handled
here contain such code points).
-/

namespace PyStr

/-- Python whitespace for `str.strip()` / `\s` (ASCII part: space, tab,
newline, carriage return, vertical tab, form feed). -/
def isPySpace (c : Char) : Bool :=
  c = ' ' || c = '\t' || c = '\n' || c = '\r' || c = Char.ofNat 11 || c = Char.ofNat 12

/-- Python `\w` word characters (ASCII part: letters, digits, underscore). -/
def isPyWord (c : Char) : Bool :=
  c.isAlphanum || c = '_'

/-- `str.strip()` on a character list. -/
def stripChars (l : List Char) : List Char :=
  ((l.dropWhile isPySpace).reverse.dropWhile isPySpace).reverse

/-- Python `str.strip()` with no arguments. -/
def pyStrip (s : String) : String :=
  ⟨stripChars s.data⟩

/-- Python `str.strip(chars)`: strips any of the given characters from both
ends. -/
def pyStripSet (cut : List Char) (s : String) : String :=
  ⟨((s.data.dropWhile (cut.contains ·)).reverse.dropWhile (cut.contains ·)).reverse⟩

/-- Python `str.lower()` (ASCII). -/
def pyLower (s : String) : String :=
  ⟨s.data.map Char.toLower⟩

/-- Python `str.upper()` (ASCII). -/
def pyUpper (s : String) : String :=
  ⟨s.data.map Char.toUpper⟩

/-- Does `sub` occur at the start of `hay`? -/
def headMatches : List Char → List Char → Bool
  | _, [] => true
  | [], _ :: _ => false
  | b :: bs, a :: as => a = b && headMatches bs as

/-- Does `hay` end with `tail`? (Python `str.endswith`.) -/
def pyEndsWith (s tail : String) : Bool :=
  headMatches s.data.reverse tail.data.reverse

/-- Does `hay` start with `head`? (Python `str.startswith`.) -/
def pyStartsWith (s head : String) : Bool :=
  headMatches s.data head.data

/-- First index `≥ idx` at which `sub` occurs in `hay` (Python
`str.find(sub, idx)` on the suffix, reporting an absolute index). -/
def findSub : List Char → List Char → Nat → Option Nat
  | [], sub, idx => if sub = [] then some idx else none
  | c :: cs, sub, idx =>
      if headMatches (c :: cs) sub then some idx else findSub cs sub (idx + 1)

/-- Python `hay.index(sub, start)` as an `Option` (None for `ValueError`). -/
def pyIndexFrom (hay sub : String) (start : Nat) : Option Nat :=
  findSub (hay.data.drop start) sub.data start

/-- Python `hay.index(sub)`. -/
def pyIndex (hay sub : String) : Option Nat :=
  pyIndexFrom hay sub 0

/-- Python slice `s[a:b]` (with `0 ≤ a ≤ b` clamped to the length). -/
def pySlice (s : String) (a b : Nat) : String :=
  ⟨(s.data.drop a).take (b - a)⟩

/-- Python `str.split()` with no arguments: split on whitespace runs,
dropping empty fields. -/
def pySplitWsGo : List Char → List Char → List String
  | [], acc => if acc = [] then [] else [⟨acc.reverse⟩]
  | c :: cs, acc =>
      if isPySpace c then
        if acc = [] then pySplitWsGo cs [] else ⟨acc.reverse⟩ :: pySplitWsGo cs []
      else
        pySplitWsGo cs (c :: acc)

def pySplitWs (s : String) : List String :=
  pySplitWsGo s.data []

/-- Python `str.split(sep)` for a single-character separator: always returns
at least one (possibly empty) field. -/
def pySplitChar (sep : Char) : List Char → List String
  | [] => [""]
  | c :: cs =>
      let rest := pySplitChar sep cs
      if c = sep then "" :: rest
      else
        match rest with
        | [] => [⟨[c]⟩]
        | r :: rs => (⟨c :: r.data⟩ : String) :: rs

def pySplitOn (s : String) (sep : Char) : List String :=
  pySplitChar sep s.data

/-- Python `list.index(x)` as an `Option` (None for `ValueError`). -/
def pyListIndex (l : List String) (x : String) : Option Nat :=
  l.findIdx? (· = x)

/-- UTF-8 byte length, Python `len(s.encode("utf-8"))`. -/
def utf8Len (s : String) : Nat :=
  s.utf8ByteSize

/-- `", ".join l` (Python `str.join`). -/
def joinWith (sep : String) : List String → String
  | [] => ""
  | [x] => x
  | x :: xs => x ++ sep ++ joinWith sep xs

/-- Python truthiness of an optional string (`None` and `""` are falsy). -/
def strTruthy : Option String → Bool
  | none => false
  | some s => s ≠ ""

/-- Python truthiness of an optional string list (`None` and `[]` are
falsy). -/
def listTruthy : Option (List String) → Bool
  | none => false
  | some l => l ≠ []

end PyStr

deriving instance DecidableEq for Except

namespace Batcher

open PyStr

/-- Python `int(q)` for a rational: truncation toward zero. -/
def pyInt (q : ℚ) : ℤ :=
  if 0 ≤ q then ⌊q⌋ else ⌈q⌉

/-- Constructor arguments of `SQLBatcher.__init__` (`batcher.py`).
`min_adjustment_factor` / `max_adjustment_factor` are Python floats holding
exact configuration constants; they are modelled as rationals. -/
structure Config where
  max_bytes : ℕ
  delimiter : String
  dry_run : Bool
  auto_adjust_for_columns : Bool
  reference_column_count : ℕ
  min_adjustment_factor : ℚ
  max_adjustment_factor : ℚ
deriving DecidableEq, Repr

/-- The defaults of `SQLBatcher.__init__`. -/
def defaultConfig : Config :=
  { max_bytes := 1000000
    delimiter := ";"
    dry_run := false
    auto_adjust_for_columns := true
    reference_column_count := 5
    min_adjustment_factor := 1/5
    max_adjustment_factor := 5 }

/-- Mutable state of a `SQLBatcher` instance. -/
structure State where
  current_batch : List String
  current_size : ℕ
  column_count : Option ℕ
  adjustment_factor : ℚ
deriving DecidableEq, Repr

/-- The state directly after `SQLBatcher.__init__`. -/
def initialState : State :=
  { current_batch := [], current_size := 0, column_count := none, adjustment_factor := 1 }

/-- Match of `^\s*INSERT\s+INTO` (case-insensitive `re.search`; `^` anchors
at the start of the string). -/
def matchesInsertIntoStart (cs : List Char) : Bool :=
  let cs := cs.dropWhile isPySpace
  if headMatches (cs.map Char.toUpper) "INSERT".data then
    let cs := cs.drop 6
    let ws := cs.takeWhile isPySpace
    decide (ws.length ≥ 1) &&
      headMatches ((cs.dropWhile isPySpace).map Char.toUpper) "INTO".data
  else false

/-- Leftmost match of `VALUES\s*\(([^)]*)\)` (case-insensitive `re.search`),
returning the captured group: the characters between the `(` following
`VALUES\s*` and the first `)` after it (the match fails at a position where
no `)` follows). -/
def searchValuesGroup : List Char → Option (List Char)
  | [] => none
  | c :: cs =>
      let here : Option (List Char) :=
        if headMatches ((c :: cs).map Char.toUpper) "VALUES".data then
          let rest := (c :: cs).drop 6
          let rest := rest.dropWhile isPySpace
          match rest with
          | '(' :: r =>
              if r.contains ')' then some (r.takeWhile (· ≠ ')')) else none
          | _ => none
        else none
      match here with
      | some g => some g
      | none => searchValuesGroup cs

/-- Leftmost match of `INSERT\s+INTO\s+\w+\s*\(([^)]*)\)` (case-insensitive
`re.search`), returning the captured group.  The quantifiers are
deterministic here: `\s`, `\w`, `(` and the literals are pairwise disjoint
character sets, so greedy matching without backtracking coincides with
Python's behaviour. -/
def searchInsertColumnsGroup : List Char → Option (List Char)
  | [] => none
  | c :: cs =>
      let here : Option (List Char) :=
        if headMatches ((c :: cs).map Char.toUpper) "INSERT".data then
          let r1 := (c :: cs).drop 6
          let ws1 := r1.takeWhile isPySpace
          let r2 := r1.dropWhile isPySpace
          if decide (ws1.length ≥ 1) && headMatches (r2.map Char.toUpper) "INTO".data then
            let r3 := r2.drop 4
            let ws2 := r3.takeWhile isPySpace
            let r4 := r3.dropWhile isPySpace
            let w := r4.takeWhile isPyWord
            let r5 := r4.dropWhile isPyWord
            if decide (ws2.length ≥ 1) && decide (w.length ≥ 1) then
              let r6 := r5.dropWhile isPySpace
              match r6 with
              | '(' :: r =>
                  if r.contains ')' then some (r.takeWhile (· ≠ ')')) else none
              | _ => none
            else none
          else none
        else none
      match here with
      | some g => some g
      | none => searchInsertColumnsGroup cs

/-- Comma count at bracket depth 0 (the loop in `detect_column_count`:
`([{` increment, `)]}` decrement, `,` at depth 0 counts). -/
def depthCommaCount : List Char → ℤ → ℕ
  | [], _ => 0
  | c :: cs, depth =>
      if c = '(' || c = '[' || c = '{' then depthCommaCount cs (depth + 1)
      else if c = ')' || c = ']' || c = '}' then depthCommaCount cs (depth - 1)
      else if c = ',' && depth = 0 then depthCommaCount cs depth + 1
      else depthCommaCount cs depth

/-- `SQLBatcher.detect_column_count`. -/
def detect_column_count (statement : String) : Option ℕ :=
  if !matchesInsertIntoStart statement.data then none
  else
    match searchValuesGroup statement.data with
    | some g => some (depthCommaCount g 0 + 1)
    | none =>
        match searchInsertColumnsGroup statement.data with
        | some g => some (g.count ',' + 1)
        | none => none

/-- `SQLBatcher.update_adjustment_factor`. -/
def update_adjustment_factor (cfg : Config) (st : State) (statement : String) : State :=
  if !cfg.auto_adjust_for_columns then st
  else
    match st.column_count with
    | some _ => st
    | none =>
        match detect_column_count statement with
        | none => st
        | some n =>
            let raw : ℚ := (cfg.reference_column_count : ℚ) / ((max 1 n : ℕ) : ℚ)
            { st with
                column_count := some n
                adjustment_factor :=
                  max cfg.min_adjustment_factor (min cfg.max_adjustment_factor raw) }

/-- The value of `get_adjusted_max_bytes` as a function of the adjustment
factor. -/
def adjustedOf (cfg : Config) (factor : ℚ) : ℤ :=
  if !cfg.auto_adjust_for_columns || factor = 1 then (cfg.max_bytes : ℤ)
  else pyInt ((cfg.max_bytes : ℚ) * factor)

/-- `SQLBatcher.get_adjusted_max_bytes`. -/
def get_adjusted_max_bytes (cfg : Config) (st : State) : ℤ :=
  adjustedOf cfg st.adjustment_factor

/-- The delimiter normalization at the top of `add_statement` (and for
oversized statements in `process_statements`): if the stripped statement
does not end with the delimiter, the stripped statement plus delimiter is
used; otherwise the statement is left as is. -/
def normalizeStatement (cfg : Config) (statement : String) : String :=
  if pyEndsWith (pyStrip statement) cfg.delimiter then statement
  else pyStrip statement ++ cfg.delimiter

/-- `SQLBatcher.add_statement`: returns the `shouldFlush` boolean and the
updated state. -/
def add_statement (cfg : Config) (st : State) (statement : String) : Bool × State :=
  let st := update_adjustment_factor cfg st statement
  let statement := normalizeStatement cfg statement
  let st := { st with
                current_batch := st.current_batch ++ [statement]
                current_size := st.current_size + utf8Len statement }
  (decide (get_adjusted_max_bytes cfg st ≤ (st.current_size : ℤ)), st)

/-- `SQLBatcher.reset`. -/
def reset (st : State) : State :=
  { st with current_batch := [], current_size := 0 }

/-- `SQLBatcher.flush` with the execution callback modelled as a fallible
function.  In dry-run mode the callback is not invoked.  On a callback
error the exception propagates and the state is left untouched; on success
the batch is reset and the statement count returned. -/
def flush {ε : Type} (cfg : Config) (st : State) (cb : String → Except ε Unit) :
    Except ε ℕ × State :=
  let count := st.current_batch.length
  if count = 0 then (.ok 0, st)
  else
    let batch_sql := joinWith "\n" st.current_batch
    if cfg.dry_run then (.ok count, reset st)
    else
      match cb batch_sql with
      | .error e => (.error e, st)
      | .ok _ => (.ok count, reset st)

/-- Events observable during `process_statements` when every execution
callback succeeds: a flushed batch (the statements joined and passed to one
callback invocation) or an oversized statement executed alone. -/
inductive FlushEvent where
  | flushedBatch (stmts : List String)
  | oversizedSingle (stmt : String)
deriving DecidableEq, Repr

/-- `SQLBatcher.flush` restricted to runs whose callback always succeeds,
instrumented to report the flushed batch as an event. -/
def flushRun (st : State) : State × ℕ × List FlushEvent :=
  if st.current_batch = [] then (st, 0, [])
  else (reset st, st.current_batch.length, [.flushedBatch st.current_batch])

/-- The column-detection loop at the top of `process_statements`: update the
adjustment factor from each of the first up-to-5 statements, stopping once a
column count is established. -/
def prescan (cfg : Config) : State → List String → State
  | st, [] => st
  | st, s :: rest =>
      let st := update_adjustment_factor cfg st s
      if st.column_count.isSome then st else prescan cfg st rest

/-- The main loop of `process_statements` including the final flush,
assuming an always-succeeding execution callback; returns the final state,
the total processed count, and the emitted flush events in order. -/
def processGo (cfg : Config) : State → List String → State × ℕ × List FlushEvent
  | st, [] => flushRun st
  | st, statement :: rest =>
      let st1 :=
        if cfg.auto_adjust_for_columns && st.column_count = none then
          update_adjustment_factor cfg st statement
        else st
      if get_adjusted_max_bytes cfg st1 < (utf8Len statement : ℤ) then
        let fr := flushRun st1
        let pr := processGo cfg fr.1 rest
        (pr.1, fr.2.1 + 1 + pr.2.1,
          fr.2.2 ++ [.oversizedSingle (normalizeStatement cfg statement)] ++ pr.2.2)
      else
        let ad := add_statement cfg st1 statement
        if ad.1 then
          let fr := flushRun ad.2
          let pr := processGo cfg fr.1 rest
          (pr.1, fr.2.1 + pr.2.1, fr.2.2 ++ pr.2.2)
        else
          processGo cfg ad.2 rest

/-- `SQLBatcher.process_statements` under an always-succeeding execution
callback, returning the final state, the processed count and the flush
events. -/
def process_statements (cfg : Config) (st : State) (statements : List String) :
    State × ℕ × List FlushEvent :=
  let st :=
    if cfg.auto_adjust_for_columns && statements.length > 0 then
      prescan cfg st (statements.take 5)
    else st
  processGo cfg st statements

/-- Sum of the UTF-8 byte sizes of a list of statements. -/
def sumBytes (l : List String) : ℕ :=
  (l.map utf8Len).sum

end Batcher

/-- The exception classes from `exceptions.py` that the embedded code can
raise, with their message strings. -/
inductive Exc where
  | InsertMergerError (msg : String)
  | PluginError (msg : String)
deriving DecidableEq, Repr

/-- `HookType` from `plugins.py` / `hooks/plugins.py`. -/
inductive HookType where
  | PRE_BATCH
  | POST_BATCH
  | PRE_EXECUTE
  | POST_EXECUTE
  | ON_ERROR
deriving DecidableEq, Repr

namespace Retry

/-- The distinguished error of `with_retry` (`retry.py`):
`MaxRetriesExceededError(max_retries) from last_exception`.  The `from`
clause sets `__cause__`; it is modelled as the `cause` field. -/
structure MaxRetriesExceeded (ε : Type) where
  max_retries : ℕ
  cause : ε
deriving DecidableEq, Repr

/-- The attempt loop of `with_retry` (`retry.py`) with `timeout = None`.
The operation is modelled as a function of the attempt index (attempt `i`
is the `i`-th invocation); the sleep between attempts is pure delay and is
not modelled.  `remaining` is `max_retries - attempt`.  Returns the final
outcome (`inl` success value or `inr` last raised error) together with the
number of invocations of the operation performed. -/
def withRetryGo {ε α : Type} (op : ℕ → Except ε α) :
    (remaining attempt : ℕ) → (α ⊕ ε) × ℕ
  | remaining, attempt =>
      match op attempt, remaining with
      | .ok a, _ => (.inl a, 1)
      | .error e, 0 => (.inr e, 1)
      | .error _, r + 1 =>
          let (res, n) := withRetryGo op r (attempt + 1)
          (res, n + 1)

/-- `with_retry` (`retry.py`) with `timeout = None`: run the operation up to
`max_retries + 1` times; on final failure raise `MaxRetriesExceededError`
whose cause is the last underlying error.  Returns the result and the
number of invocations. -/
def with_retry {ε α : Type} (max_retries : ℕ) (op : ℕ → Except ε α) :
    Except (MaxRetriesExceeded ε) α × ℕ :=
  match withRetryGo op max_retries 0 with
  | (.inl a, n) => (.ok a, n)
  | (.inr e, n) => (.error ⟨max_retries, e⟩, n)

end Retry

namespace BasicMerger

open PyStr

/-- `InsertMerger._extract_table_name` (`insert_merger.py`): split on
whitespace, find the literal token `INTO` (case-sensitive), return the next
token (`ValueError`/`IndexError` become `none`). -/
def extract_table_name (statement : String) : Option String :=
  let parts := pySplitWs statement
  match pyListIndex parts "INTO" with
  | none => none
  | some i =>
      match parts.get? (i + 1) with
      | none => none
      | some p => some (pyStrip p)

/-- `InsertMerger._extract_columns` (`insert_merger.py`). -/
def extract_columns (statement : String) : Option (List String) := do
  let i1 ← pyIndex (pyUpper statement) "INTO"
  let table_end := i1 + 4
  let table_end ← pyIndexFrom statement " " table_end
  let start ← pyIndexFrom statement "(" table_end
  let values_pos ← pyIndex (pyUpper statement) "VALUES"
  if values_pos < start then none
  else do
    let e ← pyIndexFrom statement ")" start
    let columns_str := pySlice statement (start + 1) e
    pure ((pySplitOn columns_str ',').map pyStrip)

/-- `InsertMerger._extract_values` (`insert_merger.py`). -/
def extract_values (statement : String) : Option (List String) := do
  let vs ← pyIndex (pyUpper statement) "VALUES"
  let start ← pyIndexFrom statement "(" vs
  let e ← pyIndexFrom statement ")" start
  let values_str := pySlice statement (start + 1) e
  pure ((pySplitOn values_str ',').map pyStrip)

/-- `InsertMerger._are_compatible` (`insert_merger.py`): extracted table
names equal (as `Option`s, so two failures compare equal) and extracted
column lists equal (ordered, case-sensitive list equality). -/
def are_compatible (stmt1 stmt2 : String) : Bool :=
  decide (extract_table_name stmt1 = extract_table_name stmt2) &&
    decide (extract_columns stmt1 = extract_columns stmt2)

/-- Python-dict insertion: append the statement to the group with this key,
or create the key at the end. -/
def groupInsert : List (String × List String) → String → String → List (String × List String)
  | [], table, stmt => [(table, [stmt])]
  | (t, ss) :: rest, table, stmt =>
      if t = table then (t, ss ++ [stmt]) :: rest
      else (t, ss) :: groupInsert rest table stmt

/-- The grouping loop of `merge` (`insert_merger.py`): returns the
pass-through statements and the per-table groups in insertion order. -/
def buildGroups (statements : List String) : List String × List (String × List String) :=
  statements.foldl
    (fun acc stmt =>
      if !pyStartsWith (pyUpper (pyStrip stmt)) "INSERT" then (acc.1 ++ [stmt], acc.2)
      else
        match extract_table_name stmt with
        | none => (acc.1 ++ [stmt], acc.2)
        | some table =>
            if table = "" then (acc.1 ++ [stmt], acc.2)
            else (acc.1, groupInsert acc.2 table stmt))
    ([], [])

/-- `"None"` interpolation of an optional table name in an f-string. -/
def optTableStr : Option String → String
  | some t => t
  | none => "None"

/-- The merged-statement construction for a compatible group (the duplicated
body in `merge` for groups of two or more statements). -/
def emitMerged (g : List String) : String :=
  let first := g.headD ""
  let table := optTableStr (extract_table_name first)
  let columns := extract_columns first
  let all_values := g.filterMap (fun s =>
    match extract_values s with
    | some vs => if vs ≠ [] then some ("(" ++ joinWith ", " vs ++ ")") else none
    | none => none)
  let cols_part :=
    match columns with
    | some cols => if cols ≠ [] then " (" ++ joinWith ", " cols ++ ")" else ""
    | none => ""
  "INSERT INTO " ++ table ++ cols_part ++ " VALUES " ++ joinWith ", " all_values

/-- Emit a compatible group: singletons pass through unchanged, larger
groups are folded into one multi-row INSERT. -/
def emitCompatible : List String → List String
  | [] => []
  | [x] => [x]
  | g => [emitMerged g]

/-- The inner loop over one table group: `compatible_group` accumulates
statements compatible with its first element; on an incompatible statement
the group is emitted and restarted. -/
def groupLoop : List String → List String → List String
  | grp, [] => emitCompatible grp
  | grp, s :: ss =>
      if are_compatible (grp.headD "") s then groupLoop (grp ++ [s]) ss
      else emitCompatible grp ++ groupLoop [s] ss

/-- Processing of one table group in `merge`. -/
def processGroup : List String → List String
  | [] => []
  | first :: rest => groupLoop [first] rest

/-- `InsertMerger.merge` (`insert_merger.py`).  Note: this variant never
consults `max_bytes` and never raises. -/
def merge (statements : List String) : List String :=
  if statements = [] then []
  else
    let (non_inserts, groups) := buildGroups statements
    let result := (groups.map (fun g => processGroup g.2)).flatten
    if non_inserts ≠ [] then non_inserts ++ result else result

end BasicMerger

namespace AsyncBatcher

/-- Observable operations during one `AsyncSQLBatcher.flush`
(`async_batcher.py`): adapter savepoint calls, execution-callback calls and
hook firings, in program order.  Adapter savepoint operations and hook
invocations are modelled as always succeeding (the adapter contract's
default no-op implementations); only the execution callback may fail. -/
inductive TraceOp where
  | create_savepoint
  | rollback_to_savepoint
  | release_savepoint
  | executed (sql : String)
  | hook_fired (t : HookType)
deriving DecidableEq, Repr

/-- The per-statement execution loop of `flush`: returns the statements on
which the callback was invoked (in order) and the first error, if any; the
loop stops at the first failing statement. -/
def execLoop {ε α : Type} (cb : String → Except ε α) :
    List String → List String × Option ε
  | [] => ([], none)
  | s :: rest =>
      match cb s with
      | .ok _ =>
          let (ex, r) := execLoop cb rest
          (s :: ex, r)
      | .error e => ([s], some e)

/-- `AsyncSQLBatcher.flush`: takes the current batch and the execution
callback; returns the result (count of merged statements executed, or the
propagated error), the batch held by the batcher after the call, and the
trace of adapter/hook/callback operations.  On a callback failure the
rollback-to-savepoint is issued, `ON_ERROR` hooks fire (once in the inner
handler with the failing statement, once in the outer handler with the
batch) and the error propagates with the batch left in place; on success
the savepoint is released and the batch reset. -/
def flush {ε α : Type} (batch : List String) (cb : String → Except ε α) :
    Except ε ℕ × List String × List TraceOp :=
  if batch = [] then (.ok 0, batch, [])
  else
    let merged := BasicMerger.merge batch
    let hd : List TraceOp :=
      [.create_savepoint, .hook_fired .PRE_BATCH, .hook_fired .PRE_EXECUTE]
    match execLoop cb merged with
    | (ex, some e) =>
        (.error e, batch,
          hd ++ ex.map .executed ++
            [.rollback_to_savepoint, .hook_fired .ON_ERROR, .hook_fired .ON_ERROR])
    | (_, none) =>
        (.ok merged.length, [],
          hd ++ merged.map .executed ++
            [.hook_fired .POST_EXECUTE, .hook_fired .POST_BATCH, .release_savepoint])

end AsyncBatcher

namespace UtilsMerger

open PyStr

/-- The quote characters `'`, `"` and the backtick, as used throughout
`utils/insert_merger.py`. -/
def quoteChars : List Char := [Char.ofNat 39, Char.ofNat 34, Char.ofNat 96]

/-- The tokenizer loop of `InsertMerger._normalize_sql`: whitespace-split
tokens with characters outside quotes uppercased and quoted runs preserved
verbatim. -/
def normalizeGo : List Char → Bool → Char → List Char → List String
  | [], _, _, tok => if tok = [] then [] else [⟨tok.reverse⟩]
  | c :: cs, inq, qc, tok =>
      if quoteChars.contains c then
        if !inq then normalizeGo cs true c (c :: tok)
        else if c = qc then normalizeGo cs false qc (c :: tok)
        else normalizeGo cs inq qc (c :: tok)
      else if inq then normalizeGo cs inq qc (c :: tok)
      else if isPySpace c then
        if tok = [] then normalizeGo cs inq qc []
        else (⟨tok.reverse⟩ : String) :: normalizeGo cs inq qc []
      else normalizeGo cs inq qc (c.toUpper :: tok)

/-- `InsertMerger._normalize_sql`. -/
def normalize_sql (sql : String) : String :=
  joinWith " " (normalizeGo sql.data false ' ' [])

/-- The parenthesis/quote/JSON-brace balance scan of
`InsertMerger._validate_sql`; returns the final size of the paren stack or
the in-scan unbalance error. -/
def parenScan : List Char → Option Char → Bool → ℤ → ℕ → Except Exc ℕ
  | [], _, _, _, stack => .ok stack
  | c :: cs, iq, ij, jl, stack =>
      if quoteChars.contains c && (iq = none || some c = iq) then
        parenScan cs (if iq.isSome then none else some c) ij jl stack
      else if iq = none then
        if c = '{' then parenScan cs iq true (jl + 1) stack
        else if c = '}' then
          parenScan cs iq (if jl - 1 = 0 then false else ij) (jl - 1) stack
        else if ij then parenScan cs iq ij jl stack
        else if c = '(' then parenScan cs iq ij jl (stack + 1)
        else if c = ')' then
          if stack = 0 then .error (.InsertMergerError "Unbalanced parentheses in SQL statement")
          else parenScan cs iq ij jl (stack - 1)
        else parenScan cs iq ij jl stack
      else parenScan cs iq ij jl stack

/-- A regular-expression fragment over characters, covering the constructs
used by the patterns of `utils/insert_merger.py` that have no
backreferences.  `alt` tries its left branch first and `star` is greedy
(one more iteration is preferred), matching Python's backtracking order. -/
inductive RE where
  | cls (p : Char → Bool)
  | seq (a b : RE)
  | alt (a b : RE)
  | eps
  | star (a : RE)

/-- Backtracking matcher in continuation-passing style.  `fuel` bounds the
recursion depth (each nested call consumes one unit) so that the definition
is structurally recursive; the wrapper passes fuel far exceeding any
reachable depth for the fixed patterns below. -/
def reMatch : ℕ → RE → List Char → (List Char → Option (List Char)) → Option (List Char)
  | 0, _, _, _ => none
  | fuel + 1, re, cs, k =>
      match re with
      | .eps => k cs
      | .cls p =>
          match cs with
          | [] => none
          | c :: rest => if p c then k rest else none
      | .seq a b => reMatch fuel a cs (fun r => reMatch fuel b r k)
      | .alt a b =>
          match reMatch fuel a cs k with
          | some r => some r
          | none => reMatch fuel b cs k
      | .star a =>
          match reMatch fuel a cs (fun r => reMatch fuel (.star a) r k) with
          | some r => some r
          | none => k cs

/-- `a?` (greedy). -/
def REopt (a : RE) : RE := .alt a .eps

/-- A case-insensitive literal word. -/
def litI (w : String) : RE :=
  w.data.foldr (fun c acc => RE.seq (.cls (fun x => x.toUpper = c.toUpper)) acc) .eps

/-- `\s*` / `\s+`. -/
def wsStar : RE := .star (.cls isPySpace)
def wsPlus : RE := .seq (.cls isPySpace) wsStar

/-- `[\w.]` as used in the table-end pattern. -/
def isWordDot (c : Char) : Bool := isPyWord c || c = '.'

/-- The pattern
`INSERT\s+INTO\s+(?:[`\"']?[\w.]+[`\"']?\s*\.?\s*)*[`\"']?[\w.]+[`\"']?\s*`
used by `InsertMerger._extract_columns` to find the end of the table
clause. -/
def tableEndRE : RE :=
  let tok : RE :=
    .seq (REopt (.cls (quoteChars.contains ·)))
      (.seq (.seq (.cls isWordDot) (.star (.cls isWordDot)))
        (REopt (.cls (quoteChars.contains ·))))
  .seq (litI "INSERT")
    (.seq wsPlus
      (.seq (litI "INTO")
        (.seq wsPlus
          (.seq (.star (.seq tok (.seq wsStar (.seq (REopt (.cls (· = '.'))) wsStar))))
            (.seq tok wsStar)))))

/-- `re.search` for a backreference-free pattern: leftmost match start,
then the end position chosen by greedy backtracking. -/
def reSearchEnd (re : RE) : List Char → ℕ → Option ℕ
  | cs, idx =>
      match reMatch ((cs.length + 8) * 64) re cs (fun rest => some rest) with
      | some rest => some (idx + (cs.length - rest.length))
      | none =>
          match cs with
          | [] => none
          | _ :: t => reSearchEnd re t (idx + 1)

/-- Character class `[^`\"'\.\s]` of the table-name pattern. -/
def isNamePlain (c : Char) : Bool :=
  !(quoteChars.contains c || c = '.' || isPySpace c)

/-- Match of the optionally quoted name-with-backreference fragment
`([`\"']?)([^`\"'\.\s]+)\N` at the head of the input; returns the matched
text including its quotes and the remaining input.  The quantifiers are
deterministic: the name class excludes quotes, dots and whitespace, so
greedy matching without backtracking coincides with Python. -/
def quotedNamePart (cs : List Char) : Option (String × List Char) :=
  match cs with
  | [] => none
  | c :: rest =>
      if quoteChars.contains c then
        let run := rest.takeWhile isNamePlain
        let rest2 := rest.drop run.length
        match rest2 with
        | c2 :: rest3 => if run ≠ [] && c2 = c then some (⟨c :: run ++ [c]⟩, rest3) else none
        | [] => none
      else
        let run := (c :: rest).takeWhile isNamePlain
        if run ≠ [] then some (⟨run⟩, (c :: rest).drop run.length) else none

/-- The optional schema segment `(?:([`\"']?)([^`\"'\.\s]+)\1\.)?` followed
by the mandatory table segment of the table-name pattern of
`InsertMerger._extract_table_name`; on a schema match whose continuation
fails, Python backtracks to the schema-less alternative. -/
def tableNameHere (cs : List Char) : Option String :=
  let withSchema : Option String :=
    match quotedNamePart cs with
    | some (schema, rest) =>
        match rest with
        | '.' :: rest2 =>
            match quotedNamePart rest2 with
            | some (table, _) => some (schema ++ "." ++ table)
            | none => none
        | _ => none
    | none => none
  match withSchema with
  | some r => some r
  | none =>
      match quotedNamePart cs with
      | some (table, _) => some table
      | none => none

/-- `re.search` of the full table-name pattern
`INSERT\s+INTO\s+(?:([`\"']?)([^`\"'\.\s]+)\1\.)?([`\"']?)([^`\"'\.\s]+)\3`
(case-insensitive), assembled as in the Python code from the matched
groups. -/
def tableNameSearch : List Char → Option String
  | [] => none
  | c :: cs =>
      let here : Option String :=
        if headMatches ((c :: cs).map Char.toUpper) "INSERT".data then
          let r1 := (c :: cs).drop 6
          let ws1 := r1.takeWhile isPySpace
          let r2 := r1.dropWhile isPySpace
          if decide (ws1.length ≥ 1) && headMatches (r2.map Char.toUpper) "INTO".data then
            let r3 := r2.drop 4
            let ws2 := r3.takeWhile isPySpace
            let r4 := r3.dropWhile isPySpace
            if decide (ws2.length ≥ 1) then tableNameHere r4 else none
          else none
        else none
      match here with
      | some t => some t
      | none => tableNameSearch cs

/-- `InsertMerger._extract_table_name` (`utils/insert_merger.py`). -/
def extract_table_name (sql : String) : Except Exc String :=
  match tableNameSearch sql.data with
  | some t => .ok t
  | none => .error (.InsertMergerError "Could not extract table name")

/-- The balanced-parenthesis scan of `InsertMerger._extract_columns`
starting at the opening parenthesis; `i` is the absolute index of the scan
position and `pos` the start of the column clause. -/
def ecScan (sql : List Char) (pos : ℕ) : List Char → ℕ → ℤ → Option Char → Option String
  | [], _, _, _ => none
  | c :: cs, i, pc, iq =>
      if quoteChars.contains c && (iq = none || some c = iq) then
        ecScan sql pos cs (i + 1) pc (if iq.isSome then none else some c)
      else if iq = none then
        if c = '(' then ecScan sql pos cs (i + 1) (pc + 1) iq
        else if c = ')' then
          if pc - 1 = 0 then some (pyStrip ⟨(sql.drop pos).take (i + 1 - pos)⟩)
          else ecScan sql pos cs (i + 1) (pc - 1) iq
        else ecScan sql pos cs (i + 1) pc iq
      else ecScan sql pos cs (i + 1) pc iq

/-- `InsertMerger._extract_columns` (`utils/insert_merger.py`): the column
list with parentheses if the character at the end of the table-clause match
is `(`, else `None`. -/
def extract_columns (sql : String) : Option String :=
  match reSearchEnd tableEndRE sql.data 0 with
  | none => none
  | some pos =>
      if decide (pos ≥ sql.data.length) then none
      else
        match sql.data.drop pos with
        | '(' :: _ => ecScan sql.data pos (sql.data.drop pos) pos 0 none
        | _ => none

/-- Leftmost match of `\bVALUES\s*` (case-insensitive): the position after
the keyword and the following whitespace run.  `prevWord` tracks whether
the previous character was a word character (the `\b` boundary). -/
def valuesSearchGo : List Char → Bool → ℕ → Option ℕ
  | [], _, _ => none
  | c :: cs, prevWord, idx =>
      if !prevWord && headMatches ((c :: cs).map Char.toUpper) "VALUES".data then
        let after := (c :: cs).drop 6
        some (idx + 6 + (after.takeWhile isPySpace).length)
      else valuesSearchGo cs (isPyWord c) (idx + 1)

/-- Does the remaining input start (case-insensitively after upper-casing)
with one of the keywords that terminate a VALUES clause? -/
def stopKeyword (rest : List Char) : Bool :=
  pyStartsWith (pyUpper ⟨rest⟩) "ON " || pyStartsWith (pyUpper ⟨rest⟩) "WHERE " ||
    pyStartsWith (pyUpper ⟨rest⟩) "RETURNING "

/-- The scan loop of `InsertMerger._extract_values` from the position after
`VALUES`. -/
def evScan (sql : List Char) (pos : ℕ) : List Char → ℕ → ℤ → Option Char → Bool → Option String
  | [], _, pc, _, _ =>
      if pc ≠ 0 then none else some (pyStrip ⟨sql.drop pos⟩)
  | c :: cs, i, pc, iq, found =>
      if quoteChars.contains c && (iq = none || some c = iq) then
        evScan sql pos cs (i + 1) pc (if iq.isSome then none else some c) found
      else if iq = none then
        let pc' := if c = '(' then pc + 1 else if c = ')' then pc - 1 else pc
        let found' := if c = '(' then true else found
        if (pc' = 0 && found') || (c.isAlpha && stopKeyword (c :: cs)) then
          some (pyStrip ⟨(sql.drop pos).take (i + (if pc' = 0 then 1 else 0) - pos)⟩)
        else evScan sql pos cs (i + 1) pc' iq found'
      else evScan sql pos cs (i + 1) pc iq found

/-- `InsertMerger._extract_values` (`utils/insert_merger.py`). -/
def extract_values (sql : String) : Option String :=
  match valuesSearchGo sql.data false 0 with
  | none => none
  | some pos =>
      if decide (pos ≥ sql.data.length) then none
      else evScan sql.data pos (sql.data.drop pos) pos 0 none false

/-- The column-name list as compared by `_are_compatible`:
`[c.strip(quotes).lower() for c in cols.strip("()").split(",")]` (note:
surrounding spaces inside each field are kept). -/
def colNameList (cols : String) : List String :=
  (pySplitOn (pyStripSet ['(', ')'] cols) ',').map (fun c => pyLower (pyStripSet quoteChars c))

/-- Python `set(l1) == set(l2)` on string lists. -/
def setEqList (l1 l2 : List String) : Bool :=
  l1.all (l2.contains ·) && l2.all (l1.contains ·)

/-- `InsertMerger._are_compatible` (`utils/insert_merger.py`).  Note that
when either statement's extracted column clause is falsy the statements are
deemed compatible. -/
def are_compatible (stmt1 stmt2 : String) : Except Exc Bool :=
  match extract_table_name stmt1 with
  | .error e => .error e
  | .ok table1 =>
      match extract_table_name stmt2 with
      | .error e => .error e
      | .ok table2 =>
          if pyLower table1 ≠ pyLower table2 then .ok false
          else
            let cols1 := extract_columns stmt1
            let cols2 := extract_columns stmt2
            if !strTruthy cols1 || !strTruthy cols2 then .ok true
            else
              let l1 := colNameList (cols1.getD "")
              let l2 := colNameList (cols2.getD "")
              .ok (decide (l1.length = l2.length) && setEqList l1 l2)

/-- The duplicate/invalid column-name loop of `_validate_sql`. -/
def checkCols : List String → List String → Except Exc Unit
  | [], _ => .ok ()
  | col :: rest, seen =>
      let col_norm := pyStripSet quoteChars col
      if col_norm = "" || col_norm.data.contains ' ' then
        .error (.InsertMergerError ("Invalid column name: " ++ col))
      else if seen.contains (pyLower col_norm) then
        .error (.InsertMergerError ("Duplicate column: " ++ col))
      else checkCols rest (seen ++ [pyLower col_norm])

/-- `InsertMerger._validate_sql` (`utils/insert_merger.py`). -/
def validate_sql (sql : String) : Except Exc Unit := do
  if sql = "" then .error (.InsertMergerError "SQL statement must be a non-empty string")
  else
    let normalized := normalize_sql (pyStrip sql)
    if !pyStartsWith (pyUpper normalized) "INSERT INTO" then
      .error (.InsertMergerError "Only INSERT statements are supported")
    else do
      let stack ← parenScan sql.data none false 0 0
      if stack ≠ 0 then .error (.InsertMergerError "Unbalanced parentheses in SQL statement")
      else if (findSub (pyUpper normalized).data "VALUES".data 0).isNone then
        .error (.InsertMergerError "INSERT statement must contain VALUES clause")
      else
        match extract_columns sql with
        | some cols =>
            if cols ≠ "" then
              let col_list := (pySplitOn (pyStripSet ['(', ')'] cols) ',').map pyStrip
              if col_list = [] then .error (.InsertMergerError "Empty column list")
              else checkCols col_list []
            else .ok ()
        | none => .ok ()

/-- The grouping key `(table.lower(), cols.lower() if cols else None)`. -/
abbrev GKey := String × Option String

/-- Python-dict assignment `table_groups[key] = [stmt]` (replaces in place
or appends a new key). -/
def assignKey : List (GKey × List String) → GKey → List String → List (GKey × List String)
  | [], k, v => [(k, v)]
  | (k0, v0) :: rest, k, v =>
      if k0 = k then (k0, v) :: rest else (k0, v0) :: assignKey rest k v

/-- The linear search for the first compatible group in `merge`; returns
the updated group list (statement appended to the first compatible group)
or `none` when no group is compatible. -/
def findCompat (stmt : String) : List (GKey × List String) → Except Exc (Option (List (GKey × List String)))
  | [] => .ok none
  | (k, g) :: rest =>
      match are_compatible (g.headD "") stmt with
      | .error e => .error e
      | .ok c =>
          if c then .ok (some ((k, g ++ [stmt]) :: rest))
          else
            match findCompat stmt rest with
            | .error e => .error e
            | .ok r => .ok (r.map ((k, g) :: ·))

/-- One step of the grouping loop of `merge`. -/
def groupStep (groups : List (GKey × List String)) (stmt : String) :
    Except Exc (List (GKey × List String)) :=
  match extract_table_name stmt with
  | .error e => .error e
  | .ok table =>
      let cols := extract_columns stmt
      let key : GKey :=
        (pyLower table, if strTruthy cols then some (pyLower (cols.getD "")) else none)
      match findCompat stmt groups with
      | .error e => .error e
      | .ok (some groups2) => .ok groups2
      | .ok none => .ok (assignKey groups key [stmt])

/-- The grouping loop of `merge`. -/
def buildGroups : List (GKey × List String) → List String → Except Exc (List (GKey × List String))
  | groups, [] => .ok groups
  | groups, stmt :: rest =>
      match groupStep groups stmt with
      | .error e => .error e
      | .ok groups2 => buildGroups groups2 rest

/-- The per-VALUES-clause top-level tuple scan of
`InsertMerger._merge_values`. -/
def mvScan (vals : List Char) : List Char → ℕ → ℤ → Option Char → ℕ → List String
  | [], _, _, _, _ => []
  | c :: cs, i, pc, iq, start =>
      if quoteChars.contains c && (iq = none || some c = iq) then
        mvScan vals cs (i + 1) pc (if iq.isSome then none else some c) start
      else if iq = none then
        if c = '(' then
          mvScan vals cs (i + 1) (pc + 1) iq (if pc + 1 = 1 then i else start)
        else if c = ')' then
          if pc - 1 = 0 then
            let value := pyStrip ⟨(vals.drop start).take (i + 1 - start)⟩
            if value ≠ "" then value :: mvScan vals cs (i + 1) (pc - 1) iq start
            else mvScan vals cs (i + 1) (pc - 1) iq start
          else mvScan vals cs (i + 1) (pc - 1) iq start
        else mvScan vals cs (i + 1) pc iq start
      else mvScan vals cs (i + 1) pc iq start

/-- `InsertMerger._merge_values` (`utils/insert_merger.py`). -/
def merge_values (values_list : List String) : String :=
  if values_list = [] then ""
  else joinWith ", " ((values_list.map (fun v => mvScan v.data v.data 0 0 none 0)).flatten)

/-- Run `validate_sql` over every statement. -/
def validateAll : List String → Except Exc Unit
  | [] => .ok ()
  | s :: rest =>
      match validate_sql s with
      | .error e => .error e
      | .ok _ => validateAll rest

/-- The merged-statement construction for one group in `merge`. -/
def mergedOf (g : List String) : Except Exc String :=
  let base := g.headD ""
  match extract_table_name base with
  | .error e => .error e
  | .ok table =>
      let columns := extract_columns base
      let values := g.filterMap (fun s =>
        let v := extract_values s
        if strTruthy v then some (v.getD "") else none)
      let cols_part :=
        if strTruthy columns then " " ++ columns.getD "" else ""
      .ok ("INSERT INTO " ++ table ++ cols_part ++ " VALUES " ++ merge_values values)

/-- The per-group emission of `merge`, parameterized by the recursive call
used for the two halves of an oversized group. -/
def groupEmit (maxB : ℕ) (mergeRec : List String → Except Exc (List String))
    (g : List String) : Except Exc (List String) :=
  match mergedOf g with
  | .error e => .error e
  | .ok merged =>
      if maxB < merged.length then
        if g.length = 1 then .ok [g.headD ""]
        else
          let mid := g.length / 2
          match mergeRec (g.take mid) with
          | .error e => .error e
          | .ok a =>
              match mergeRec (g.drop mid) with
              | .error e => .error e
              | .ok b => .ok (a ++ b)
      else .ok [merged]

/-- The loop over the groups of `merge`. -/
def groupsGo (maxB : ℕ) (mergeRec : List String → Except Exc (List String)) :
    List (GKey × List String) → Except Exc (List String)
  | [] => .ok []
  | (_, g) :: rest =>
      match groupEmit maxB mergeRec g with
      | .error e => .error e
      | .ok out =>
          match groupsGo maxB mergeRec rest with
          | .error e => .error e
          | .ok more => .ok (out ++ more)

/-- `InsertMerger.merge` (`utils/insert_merger.py`) with explicit recursion
fuel.  The recursive split always halves a group of at least two
statements, so every recursive call strictly shrinks the statement list;
fuel `length + 1` (supplied by the wrapper `merge`) can therefore never be
exhausted, and the fuel-out error is unreachable from the wrapper. -/
def mergeGo (maxB : ℕ) : ℕ → List String → Except Exc (List String)
  | 0, _ => .error (.InsertMergerError "merge recursion fuel exhausted")
  | fuel + 1, statements =>
      if statements = [] then .error (.InsertMergerError "No statements to merge")
      else
        match validateAll statements with
        | .error e => .error e
        | .ok _ =>
            match buildGroups [] statements with
            | .error e => .error e
            | .ok groups => groupsGo maxB (fun ss => mergeGo maxB fuel ss) groups

/-- `InsertMerger.merge` (`utils/insert_merger.py`); `maxB` is the
`max_bytes` of the constructor (default 900000).  Python's `len(merged)`
counts characters, hence `String.length`. -/
def merge (maxB : ℕ) (statements : List String) : Except Exc (List String) :=
  mergeGo maxB (statements.length + 1) statements

end UtilsMerger

namespace HooksPlugins

/-- A plugin as seen by the `PluginManager` of `hooks/plugins.py`: a name
plus, per hook type, the ordered list of hook functions it contributes
(`get_hooks`, empty for absent dictionary keys).  The hook functions
themselves are opaque values of the parameter type `H`. -/
structure Plugin (H : Type) where
  name : String
  hooks : HookType → List H

/-- State of `PluginManager` (`hooks/plugins.py`): the plugins dictionary in
insertion order.  The derived `_hooks` registry is recomputed by
`_update_hooks` after every change; it is modelled by `get_hooks` below. -/
structure Manager (H : Type) where
  plugins : List (Plugin H)

/-- The empty manager (`PluginManager.__init__`). -/
def emptyManager (H : Type) : Manager H := ⟨[]⟩

/-- `PluginManager.register_plugin` (`hooks/plugins.py`): a duplicate name
is rejected — with an `InsertMergerError`, not a `PluginError`. -/
def register_plugin {H : Type} (m : Manager H) (p : Plugin H) : Except Exc (Manager H) :=
  if (m.plugins.map (·.name)).contains p.name then
    .error (.InsertMergerError ("Plugin " ++ p.name ++ " already registered"))
  else .ok ⟨m.plugins ++ [p]⟩

/-- `PluginManager.unregister_plugin` (`hooks/plugins.py`).  `del` removes
the single entry under the name; since `register_plugin` rejects duplicate
names every reachable manager has pairwise distinct names, for which the
filter below is that deletion. -/
def unregister_plugin {H : Type} (m : Manager H) (name : String) : Except Exc (Manager H) :=
  if !(m.plugins.map (·.name)).contains name then
    .error (.InsertMergerError ("Plugin " ++ name ++ " not registered"))
  else .ok ⟨m.plugins.filter (fun p => p.name ≠ name)⟩

/-- `PluginManager.get_hooks` after `_update_hooks`: the concatenation, in
plugin registration order, of each plugin's hooks for the type. -/
def get_hooks {H : Type} (m : Manager H) (t : HookType) : List H :=
  (m.plugins.map (fun p => p.hooks t)).flatten

end HooksPlugins

namespace PluginsModule

/-- `PluginManager.register_plugin` of the other plugin manager
(`plugins.py`): `self._plugins[plugin.name] = plugin` — a duplicate name
silently replaces the existing plugin (dict assignment keeps the original
position).  The manager state is the name→plugin dictionary in insertion
order. -/
def register_plugin {P : Type} : List (String × P) → String → P → List (String × P)
  | [], name, p => [(name, p)]
  | (n, q) :: rest, name, p =>
      if n = name then (n, p) :: rest
      else (n, q) :: register_plugin rest name p

end PluginsModule

namespace Batcher

/-- The size invariant of claim C9: the running size accumulator equals the
sum of the UTF-8 byte lengths of the buffered statements. -/
def SizeInv (st : State) : Prop :=
  st.current_size = sumBytes st.current_batch

/-- Conditions under which the adjustment factor (and hence the adjusted
ceiling) cannot change during a `process_statements` run: auto-adjustment
is off, or a column count is already established (it is never cleared by
`update_adjustment_factor`), or no statement of the run is recognized as a
column-bearing INSERT. -/
def FactorFrozen (cfg : Config) (st : State) (stmts : List String) : Prop :=
  cfg.auto_adjust_for_columns = false ∨ st.column_count ≠ none ∨
    ∀ s ∈ stmts, detect_column_count s = none

end Batcher

namespace UtilsMerger

open PyStr

/-- Claim-side reading of "explicit column list" following the spec's words
("explicit column list via the parenthesized group immediately following
the table name, only if it precedes any `VALUES` keyword"): the statement
has an explicit column list iff its first `(` occurs before the first
`VALUES` keyword (or there is a `(` and no `VALUES` at all). -/
def specHasColumnList (sql : String) : Bool :=
  match findSub sql.data ['('] 0, findSub (pyUpper sql).data "VALUES".data 0 with
  | some p, some v => decide (p < v)
  | some _, none => true
  | none, _ => false

/-- Claim-side column list: the contents of the first balanced parenthesized
group, split on commas, each element whitespace-stripped, quote-stripped and
lowercased ("set-equal case-insensitively ignoring quoting"). -/
def specColumnElems (sql : String) : List String :=
  match findSub sql.data ['('] 0 with
  | none => []
  | some p =>
      let inner := ((sql.data.drop (p + 1)).takeWhile (· ≠ ')'))
      (pySplitOn ⟨inner⟩ ',').map (fun c => pyLower (pyStripSet quoteChars (pyStrip c)))

/-- The compatibility relation exactly as claim C6 states it, built on the
code's table-name extraction: table names match (case-insensitively, as the
code compares them) and either both statements lack an explicit column
list, or both have explicit column lists whose elements are set-equal
case-insensitively ignoring quoting. -/
def specCompatible (s1 s2 : String) : Bool :=
  match extract_table_name s1, extract_table_name s2 with
  | .ok t1, .ok t2 =>
      pyLower t1 = pyLower t2 &&
        ((!specHasColumnList s1 && !specHasColumnList s2) ||
          (specHasColumnList s1 && specHasColumnList s2 &&
            setEqList (specColumnElems s1) (specColumnElems s2)))
  | _, _ => false

/-- The value `_are_compatible` computes whenever it returns without
raising, as a standalone boolean function (the amended form of claim C6). -/
def amendedCompatible (s1 s2 : String) : Bool :=
  match extract_table_name s1, extract_table_name s2 with
  | .ok t1, .ok t2 =>
      pyLower t1 = pyLower t2 &&
        (!strTruthy (extract_columns s1) || !strTruthy (extract_columns s2) ||
          (decide ((colNameList ((extract_columns s1).getD "")).length =
              (colNameList ((extract_columns s2).getD "")).length) &&
            setEqList (colNameList ((extract_columns s1).getD ""))
              (colNameList ((extract_columns s2).getD ""))))
  | _, _ => false

end UtilsMerger

/-! ## Theorems

Each claim `Cn` of the specification is settled by the theorem(s) below.
-/

open PyStr

/-- C10: on the empty input list the two public merge implementations
disagree: `merge([])` in the utils variant raises `InsertMergerError`
rather than returning a result, while `merge([])` in the basic variant
returns the empty list; the two embeddings of `Merge` are not equivalent at
this input. -/
theorem C10_empty_input_divergence :
    (∀ maxB : ℕ, UtilsMerger.merge maxB [] =
      .error (.InsertMergerError "No statements to merge")) ∧
    BasicMerger.merge [] = [] ∧
    ∀ (maxB : ℕ) (res : List String), UtilsMerger.merge maxB [] ≠ .ok res := by
  refine ⟨fun maxB => rfl, rfl, fun maxB res h => ?_⟩
  rw [show UtilsMerger.merge maxB [] = .error (.InsertMergerError "No statements to merge") from rfl] at h
  exact Except.noConfusion h

/-- C7 counterexample: the utils merger is not the identity on a
single-statement list.  On the plain INSERT `INSERT INTO t VALUES (1, 2)`
(no explicit column list) it rebuilds the statement with the first VALUES
tuple misparsed as a column list; the output differs from the input by more
than any appended delimiter. -/
theorem C7_counterexample :
    UtilsMerger.merge 900000 ["INSERT INTO t VALUES (1, 2)"] =
      .ok ["INSERT INTO t (1, 2) VALUES (1, 2)"] ∧
    ("INSERT INTO t (1, 2) VALUES (1, 2)" : String) ≠ "INSERT INTO t VALUES (1, 2)" ∧
    ∀ d : String, ("INSERT INTO t (1, 2) VALUES (1, 2)" : String) ≠
      "INSERT INTO t VALUES (1, 2)" ++ d := by
  refine ⟨rfl, by decide, fun d h => ?_⟩
  have h2 : ("INSERT INTO t (1, 2) VALUES (1, 2)" : String).data.take 27 =
      (("INSERT INTO t VALUES (1, 2)" : String) ++ d).data.take 27 := by rw [h]
  rw [String.data_append] at h2
  rw [List.take_left' (by decide : ("INSERT INTO t VALUES (1, 2)" : String).data.length = 27)] at h2
  exact absurd h2 (by decide)

/-- C7 amended: merging a single-statement list is the identity for the
basic merger (`insert_merger.py`), for every input statement; the utils
merger instead rebuilds the statement from its extracted parts and only
reproduces statements already in that canonical form. -/
theorem C7_basic_merge_singleton_identity (s : String) :
    BasicMerger.merge [s] = [s] := by
  unfold BasicMerger.merge BasicMerger.buildGroups
  simp only [List.foldl]
  by_cases h1 : pyStartsWith (pyUpper (pyStrip s)) "INSERT"
  · cases h2 : BasicMerger.extract_table_name s with
    | none => simp [h1, h2, BasicMerger.processGroup]
    | some t =>
        by_cases h3 : t = ""
        · simp [h1, h2, h3]
        · simp [h1, h2, h3, BasicMerger.groupInsert, BasicMerger.processGroup,
            BasicMerger.groupLoop, BasicMerger.emitCompatible]
  · simp [h1]

namespace Retry

/-- If the operation succeeds on attempt `attempt + k` after failing on the
`k` preceding attempts, the retry loop returns that success after exactly
`k + 1` invocations. -/
theorem withRetryGo_succeeds {ε α : Type} (op : ℕ → Except ε α) (a : α) :
    ∀ (k r attempt : ℕ), k ≤ r →
      (∀ i, i < k → ∃ e, op (attempt + i) = .error e) →
      op (attempt + k) = .ok a →
      withRetryGo op r attempt = (.inl a, k + 1) := by
  intro k
  induction k with
  | zero =>
      intro r attempt _ _ hok
      rw [Nat.add_zero] at hok
      simp [withRetryGo, hok]
  | succ k ih =>
      intro r attempt hle hfail hok
      obtain ⟨r', rfl⟩ : ∃ r', r = r' + 1 := ⟨r - 1, by omega⟩
      obtain ⟨e, he⟩ := hfail 0 (Nat.succ_pos k)
      rw [Nat.add_zero] at he
      have hrec := ih r' (attempt + 1) (by omega)
        (fun i hi => by
          obtain ⟨e', he'⟩ := hfail (i + 1) (by omega)
          exact ⟨e', by rw [show attempt + 1 + i = attempt + (i + 1) by omega]; exact he'⟩)
        (by rw [show attempt + 1 + k = attempt + (k + 1) by omega]; exact hok)
      simp [withRetryGo, he, hrec]

/-- If the operation fails on all `r + 1` attempts starting at `attempt`,
the retry loop returns the error of the last attempt after exactly `r + 1`
invocations. -/
theorem withRetryGo_exhausts {ε α : Type} (op : ℕ → Except ε α) :
    ∀ (r attempt : ℕ),
      (∀ i, i ≤ r → ∃ e, op (attempt + i) = .error e) →
      ∃ e, op (attempt + r) = .error e ∧ withRetryGo op r attempt = (.inr e, r + 1) := by
  intro r
  induction r with
  | zero =>
      intro attempt hfail
      obtain ⟨e, he⟩ := hfail 0 (le_refl 0)
      rw [Nat.add_zero] at he
      exact ⟨e, by rw [Nat.add_zero]; exact he, by simp [withRetryGo, he]⟩
  | succ r ih =>
      intro attempt hfail
      obtain ⟨e0, he0⟩ := hfail 0 (Nat.zero_le _)
      rw [Nat.add_zero] at he0
      obtain ⟨e, he, hrun⟩ := ih (attempt + 1)
        (fun i hi => by
          obtain ⟨e', he'⟩ := hfail (i + 1) (by omega)
          exact ⟨e', by rw [show attempt + 1 + i = attempt + (i + 1) by omega]; exact he'⟩)
      refine ⟨e, by rw [show attempt + (r + 1) = attempt + 1 + r by omega]; exact he, ?_⟩
      simp [withRetryGo, he0, hrun]

end Retry

/-- C2: for every operation and every `maxRetries ≥ 0`: if the operation
fails `k < maxRetries` times and then succeeds, `with_retry` returns the
success result after exactly `k + 1` invocations; if it fails
`maxRetries + 1` times, `with_retry` raises `MaxRetriesExceededError` after
exactly `maxRetries + 1` invocations, with the last underlying error as the
cause of the raised error. -/
theorem C2_retry_invocation_counts :
    (∀ (ε α : Type) (op : ℕ → Except ε α) (max_retries k : ℕ) (a : α),
      k < max_retries →
      (∀ i, i < k → ∃ e, op i = .error e) →
      op k = .ok a →
      Retry.with_retry max_retries op = (.ok a, k + 1)) ∧
    (∀ (ε α : Type) (op : ℕ → Except ε α) (max_retries : ℕ),
      (∀ i, i ≤ max_retries → ∃ e, op i = .error e) →
      ∃ e, op max_retries = .error e ∧
        Retry.with_retry max_retries op =
          (.error ⟨max_retries, e⟩, max_retries + 1)) := by
  constructor
  · intro ε α op max_retries k a hk hfail hok
    have h := Retry.withRetryGo_succeeds op a k max_retries 0 (le_of_lt hk)
      (fun i hi => by simpa using hfail i hi) (by simpa using hok)
    unfold Retry.with_retry
    rw [h]
  · intro ε α op max_retries hfail
    obtain ⟨e, he, hrun⟩ := Retry.withRetryGo_exhausts op max_retries 0
      (fun i hi => by simpa using hfail i hi)
    refine ⟨e, by simpa using he, ?_⟩
    unfold Retry.with_retry
    rw [hrun]

/-- Witness for C2 at concrete inputs: an operation failing twice then
succeeding, under `max_retries = 3`, returns after 3 invocations; an
always-failing operation exhausts 4 invocations and carries its last error
as the cause. -/
theorem C2_witness :
    Retry.with_retry 3 (fun i => if i < 2 then .error i else .ok 42) = (.ok 42, 3) ∧
    ∃ e, (fun i => (.error (i * 10) : Except ℕ ℕ)) 3 = .error e ∧
      Retry.with_retry 3 (fun i => (.error (i * 10) : Except ℕ ℕ)) =
        (.error ⟨3, e⟩, 4) := by
  constructor
  · exact C2_retry_invocation_counts.1 ℕ ℕ _ 3 2 42 (by decide)
      (fun i hi => ⟨i, by interval_cases i <;> decide⟩) (by decide)
  · exact C2_retry_invocation_counts.2 ℕ ℕ _ 3 (fun i _ => ⟨i * 10, rfl⟩)

/-- C4 counterexample: a `flush` whose execution callback fails propagates
the error but leaves the open batch in place — `current_batch` is not empty
and `current_size` is not zero after the failed call, in both the
synchronous and the asynchronous batcher. -/
theorem C4_counterexample :
    (Batcher.flush Batcher.defaultConfig ⟨["X;"], 2, none, 1⟩
        (fun _ => (.error 7 : Except ℕ Unit))).1 = .error 7 ∧
    (Batcher.flush Batcher.defaultConfig ⟨["X;"], 2, none, 1⟩
        (fun _ => (.error 7 : Except ℕ Unit))).2.current_batch = ["X;"] ∧
    (Batcher.flush Batcher.defaultConfig ⟨["X;"], 2, none, 1⟩
        (fun _ => (.error 7 : Except ℕ Unit))).2.current_size = 2 ∧
    (AsyncBatcher.flush ["X;"] (fun _ => (.error 7 : Except ℕ Unit))).1 = .error 7 ∧
    (AsyncBatcher.flush ["X;"] (fun _ => (.error 7 : Except ℕ Unit))).2.1 = ["X;"] := by
  refine ⟨by decide, by decide, by decide, by decide, by decide⟩

/-- C4 amended: every `Flush` that propagates an error to the caller leaves
the Batcher's open batch unchanged — the statements (and running size) are
retained, not cleared; only a successful flush resets the batch. -/
theorem C4_amended :
    (∀ (ε : Type) (cfg : Batcher.Config) (st : Batcher.State)
        (cb : String → Except ε Unit) (e : ε),
      (Batcher.flush cfg st cb).1 = .error e → (Batcher.flush cfg st cb).2 = st) ∧
    (∀ (ε α : Type) (batch : List String) (cb : String → Except ε α) (e : ε),
      (AsyncBatcher.flush batch cb).1 = .error e →
        (AsyncBatcher.flush batch cb).2.1 = batch) := by
  constructor
  · intro ε cfg st cb e h
    by_cases h0 : st.current_batch.length = 0
    · simp [Batcher.flush, h0] at h
    · by_cases hd : cfg.dry_run
      · simp [Batcher.flush, h0, hd] at h
      · rcases hcb : cb (joinWith "\n" st.current_batch) with e' | u
        · simp [Batcher.flush, h0, hd, hcb]
        · simp [Batcher.flush, h0, hd, hcb] at h
  · intro ε α batch cb e h
    by_cases hb : batch = []
    · simp [AsyncBatcher.flush, hb] at h
    · rcases hx : AsyncBatcher.execLoop cb (BasicMerger.merge batch) with ⟨ex, oe⟩
      rcases oe with _ | e'
      · simp [AsyncBatcher.flush, hb, hx] at h
      · simp [AsyncBatcher.flush, hb, hx]

/-- Witness for C4 amended at the counterexample's inputs. -/
theorem C4_witness :
    (Batcher.flush Batcher.defaultConfig ⟨["X;"], 2, none, 1⟩
        (fun _ => (.error 7 : Except ℕ Unit))).2 = ⟨["X;"], 2, none, 1⟩ ∧
    (AsyncBatcher.flush ["X;"] (fun _ => (.error 7 : Except ℕ Unit))).2.1 = ["X;"] :=
  ⟨C4_amended.1 ℕ _ _ _ 7 (by decide), C4_amended.2 ℕ Unit _ _ 7 (by decide)⟩

namespace Batcher

/-- `update_adjustment_factor` never touches the batch or its size. -/
theorem update_adjustment_factor_batch_size (cfg : Config) (st : State) (s : String) :
    (update_adjustment_factor cfg st s).current_batch = st.current_batch ∧
    (update_adjustment_factor cfg st s).current_size = st.current_size := by
  unfold update_adjustment_factor
  repeat' split
  all_goals exact ⟨rfl, rfl⟩

end Batcher

/-- C9: between public operations, `current_size` equals the sum of the
UTF-8 byte lengths of `current_batch`: the invariant holds initially, is
preserved by `add_statement`, `reset` and `flush`, and after a `reset` or a
normally-returning `flush` the batch is empty with size zero. -/
theorem C9_size_invariant :
    Batcher.SizeInv Batcher.initialState ∧
    (∀ (cfg : Batcher.Config) (st : Batcher.State) (s : String),
      Batcher.SizeInv st → Batcher.SizeInv (Batcher.add_statement cfg st s).2) ∧
    (∀ st : Batcher.State, Batcher.SizeInv (Batcher.reset st) ∧
      (Batcher.reset st).current_batch = [] ∧ (Batcher.reset st).current_size = 0) ∧
    (∀ (ε : Type) (cfg : Batcher.Config) (st : Batcher.State) (cb : String → Except ε Unit),
      Batcher.SizeInv st →
        Batcher.SizeInv (Batcher.flush cfg st cb).2 ∧
        ∀ n, (Batcher.flush cfg st cb).1 = .ok n →
          (Batcher.flush cfg st cb).2.current_batch = [] ∧
          (Batcher.flush cfg st cb).2.current_size = 0) := by
  refine ⟨by simp [Batcher.SizeInv, Batcher.initialState, Batcher.sumBytes], ?_, ?_, ?_⟩
  · intro cfg st s hinv
    obtain ⟨hb, hs⟩ := Batcher.update_adjustment_factor_batch_size cfg st s
    simp only [Batcher.SizeInv, Batcher.add_statement, hb, hs]
    simp only [Batcher.sumBytes, List.map_append, List.sum_append, List.map_cons,
      List.map_nil, List.sum_cons, List.sum_nil]
    have hinv2 : st.current_size = Batcher.sumBytes st.current_batch := hinv
    simp [Batcher.sumBytes] at hinv2
    omega
  · intro st
    refine ⟨?_, rfl, rfl⟩
    simp [Batcher.SizeInv, Batcher.reset, Batcher.sumBytes]
  · intro ε cfg st cb hinv
    by_cases h0 : st.current_batch.length = 0
    · have hb : st.current_batch = [] := List.length_eq_zero.mp h0
      have hs : st.current_size = 0 := by
        simpa [Batcher.SizeInv, hb, Batcher.sumBytes] using hinv
      constructor
      · simpa [Batcher.flush, h0] using hinv
      · intro n _
        simp [Batcher.flush, h0, hb, hs]
    · by_cases hd : cfg.dry_run
      · constructor
        · simp [Batcher.flush, h0, hd, Batcher.SizeInv, Batcher.reset, Batcher.sumBytes]
        · intro n _
          simp [Batcher.flush, h0, hd, Batcher.reset]
      · rcases hcb : cb (joinWith "\n" st.current_batch) with e' | u
        · constructor
          · simpa [Batcher.flush, h0, hd, hcb] using hinv
          · intro n hn
            simp [Batcher.flush, h0, hd, hcb] at hn
        · constructor
          · simp [Batcher.flush, h0, hd, hcb, Batcher.SizeInv, Batcher.reset, Batcher.sumBytes]
          · intro n _
            simp [Batcher.flush, h0, hd, hcb, Batcher.reset]

/-- Witness for C9 at concrete inputs. -/
theorem C9_witness :
    Batcher.SizeInv (Batcher.add_statement Batcher.defaultConfig Batcher.initialState "SELECT 1").2 ∧
    Batcher.SizeInv (Batcher.flush Batcher.defaultConfig ⟨["a;"], 2, none, 1⟩
        (fun _ => (.ok () : Except Unit Unit))).2 :=
  ⟨C9_size_invariant.2.1 _ _ _ (by unfold Batcher.SizeInv; decide),
    (C9_size_invariant.2.2.2 Unit Batcher.defaultConfig ⟨["a;"], 2, none, 1⟩ _
      (by unfold Batcher.SizeInv; decide)).1⟩

/-- C8 counterexample: registering a plugin whose name is already
registered is rejected by the `hooks/plugins.py` manager with an
`InsertMergerError`, not a `PluginError`; and the `plugins.py` manager
does not reject the duplicate at all, it silently replaces the existing
plugin. -/
theorem C8_counterexample :
    (HooksPlugins.register_plugin (H := Unit) ⟨[⟨"p", fun _ => []⟩]⟩ ⟨"p", fun _ => []⟩ =
      .error (.InsertMergerError "Plugin p already registered")) ∧
    (∀ msg, HooksPlugins.register_plugin (H := Unit) ⟨[⟨"p", fun _ => []⟩]⟩ ⟨"p", fun _ => []⟩ ≠
      .error (.PluginError msg)) ∧
    PluginsModule.register_plugin [("p", 0)] "p" 1 = [("p", 1)] := by
  refine ⟨rfl, fun msg h => ?_, rfl⟩
  rw [show HooksPlugins.register_plugin (H := Unit) ⟨[⟨"p", fun _ => []⟩]⟩ ⟨"p", fun _ => []⟩ =
    .error (.InsertMergerError "Plugin p already registered") from rfl] at h
  simp at h

/-- C8 amended: a duplicate plugin name is rejected by the
`hooks/plugins.py` manager, but with an `InsertMergerError` (not
`PluginError`); unregistering a registered plugin removes exactly the
hooks that plugin contributed, leaving the other plugins' hooks intact and
in their original order. -/
theorem C8_amended :
    (∀ (H : Type) (m : HooksPlugins.Manager H) (p : HooksPlugins.Plugin H),
      (m.plugins.map (fun q => q.name)).contains p.name →
      HooksPlugins.register_plugin m p =
        .error (.InsertMergerError ("Plugin " ++ p.name ++ " already registered"))) ∧
    (∀ (H : Type) (l1 l2 : List (HooksPlugins.Plugin H)) (p : HooksPlugins.Plugin H),
      (∀ q ∈ l1, q.name ≠ p.name) → (∀ q ∈ l2, q.name ≠ p.name) →
      ∃ m', HooksPlugins.unregister_plugin ⟨l1 ++ p :: l2⟩ p.name = .ok m' ∧
        m'.plugins = l1 ++ l2 ∧
        ∀ t, HooksPlugins.get_hooks m' t =
            HooksPlugins.get_hooks ⟨l1⟩ t ++ HooksPlugins.get_hooks ⟨l2⟩ t ∧
          HooksPlugins.get_hooks (⟨l1 ++ p :: l2⟩ : HooksPlugins.Manager H) t =
            HooksPlugins.get_hooks ⟨l1⟩ t ++ p.hooks t ++ HooksPlugins.get_hooks ⟨l2⟩ t) := by
  constructor
  · intro H m p h
    unfold HooksPlugins.register_plugin
    exact if_pos h
  · intro H l1 l2 p h1 h2
    have hcont : ((l1 ++ p :: l2).map (fun q => q.name)).contains p.name = true := by
      simp
    have hl1 : l1.filter (fun q => q.name ≠ p.name) = l1 :=
      List.filter_eq_self.mpr (fun q hq => decide_eq_true (h1 q hq))
    have hl2 : l2.filter (fun q => q.name ≠ p.name) = l2 :=
      List.filter_eq_self.mpr (fun q hq => decide_eq_true (h2 q hq))
    have hfilter : (l1 ++ p :: l2).filter (fun q => q.name ≠ p.name) = l1 ++ l2 := by
      rw [List.filter_append, List.filter_cons_of_neg, hl1, hl2]
      simp
    refine ⟨⟨l1 ++ l2⟩, ?_, rfl, fun t => ⟨?_, ?_⟩⟩
    · unfold HooksPlugins.unregister_plugin
      rw [if_neg (by simp [hcont])]
      rw [hfilter]
    · simp [HooksPlugins.get_hooks]
    · simp [HooksPlugins.get_hooks]

/-- Witness for C8 amended at a concrete three-plugin manager. -/
theorem C8_witness :
    ∃ m', HooksPlugins.unregister_plugin (H := ℕ)
        ⟨[⟨"a", fun _ => [1]⟩] ++ (⟨"p", fun _ => [3]⟩ : HooksPlugins.Plugin ℕ) :: [⟨"b", fun _ => [2]⟩]⟩ "p" = .ok m' ∧
      m'.plugins = [⟨"a", fun _ => [1]⟩] ++ [⟨"b", fun _ => [2]⟩] ∧
      ∀ t, HooksPlugins.get_hooks m' t =
          HooksPlugins.get_hooks ⟨[⟨"a", fun _ => [1]⟩]⟩ t ++
            HooksPlugins.get_hooks ⟨[⟨"b", fun _ => [2]⟩]⟩ t ∧
        HooksPlugins.get_hooks
            (⟨[⟨"a", fun _ => [1]⟩] ++ (⟨"p", fun _ => [3]⟩ : HooksPlugins.Plugin ℕ) :: [⟨"b", fun _ => [2]⟩]⟩ :
              HooksPlugins.Manager ℕ) t =
          HooksPlugins.get_hooks ⟨[⟨"a", fun _ => [1]⟩]⟩ t ++
            (⟨"p", fun _ => [3]⟩ : HooksPlugins.Plugin ℕ).hooks t ++
            HooksPlugins.get_hooks ⟨[⟨"b", fun _ => [2]⟩]⟩ t :=
  C8_amended.2 ℕ [⟨"a", fun _ => [1]⟩] [⟨"b", fun _ => [2]⟩] ⟨"p", fun _ => [3]⟩
    (by intro q hq; simp at hq; subst hq; decide)
    (by intro q hq; simp at hq; subst hq; decide)

/-- C6 counterexample: two plain INSERTs for the same table, neither with a
syntactic column list, are compatible according to the claim (both lack an
explicit column list) but incompatible for the code: the column extractor
returns each statement's first VALUES tuple as its column list, and the two
tuples differ. -/
theorem C6_counterexample :
    UtilsMerger.are_compatible "INSERT INTO t VALUES (1, 2)" "INSERT INTO t VALUES (3, 4)" =
      .ok false ∧
    UtilsMerger.specCompatible "INSERT INTO t VALUES (1, 2)" "INSERT INTO t VALUES (3, 4)" =
      true := by
  exact ⟨rfl, rfl⟩

/-- C6 amended: whenever `_are_compatible` returns, its result is: the
extracted table names are equal after lowercasing, and either statement's
extracted column clause is falsy, or both clauses split into comma fields
(quote-stripped and lowercased, surrounding spaces kept) of equal number
forming equal sets — where the extractor returns, for an INSERT without a
syntactic column list, the first VALUES tuple as the column clause. -/
theorem C6_amended (s1 s2 : String) (b : Bool)
    (h : UtilsMerger.are_compatible s1 s2 = .ok b) :
    b = UtilsMerger.amendedCompatible s1 s2 := by
  unfold UtilsMerger.are_compatible at h
  unfold UtilsMerger.amendedCompatible
  rcases h1 : UtilsMerger.extract_table_name s1 with e1 | t1 <;> rw [h1] at h
  · exact Except.noConfusion h
  · rcases h2 : UtilsMerger.extract_table_name s2 with e2 | t2 <;> rw [h2] at h
    · exact Except.noConfusion h
    · dsimp only at h ⊢
      by_cases ht : pyLower t1 = pyLower t2
      · simp only [ht, ne_eq, not_true_eq_false, if_false, reduceIte] at h
        by_cases hc : (!strTruthy (UtilsMerger.extract_columns s1) ||
            !strTruthy (UtilsMerger.extract_columns s2)) = true
        · simp only [hc, if_true, reduceIte] at h
          have hb : b = true := (Except.ok.inj h).symm
          subst hb
          simp only [ht]
          rcases Bool.or_eq_true_iff.mp hc with hc1 | hc1 <;> simp [hc1]
        · simp only [hc, if_false, reduceIte] at h
          have hb := (Except.ok.inj h).symm
          subst hb
          have hc1 : strTruthy (UtilsMerger.extract_columns s1) = true := by
            cases hx : strTruthy (UtilsMerger.extract_columns s1)
            · exact absurd (by simp [hx]) hc
            · rfl
          have hc2 : strTruthy (UtilsMerger.extract_columns s2) = true := by
            cases hx : strTruthy (UtilsMerger.extract_columns s2)
            · exact absurd (by simp [hx]) hc
            · rfl
          simp [ht, hc1, hc2]
      · simp only [ne_eq, ht, not_false_eq_true, if_true, reduceIte] at h
        have hb : b = false := (Except.ok.inj h).symm
        subst hb
        simp [ht]

/-- Witness for C6 amended at a concrete compatible pair. -/
theorem C6_witness :
    true = UtilsMerger.amendedCompatible "INSERT INTO t (a) VALUES (1)"
      "INSERT INTO t (a) VALUES (1)" :=
  C6_amended "INSERT INTO t (a) VALUES (1)" "INSERT INTO t (a) VALUES (1)" true rfl

namespace AsyncBatcher

theorem execLoop_all_ok {ε α : Type} (cb : String → Except ε α) :
    ∀ l : List String, (∀ s ∈ l, ∃ a, cb s = .ok a) →
      execLoop cb l = (l, none) := by
  intro l
  induction l with
  | nil => intro _; rfl
  | cons x xs ih =>
      intro h
      obtain ⟨a, ha⟩ := h x (List.mem_cons_self x xs)
      have hrec := ih (fun s hs => h s (List.mem_cons_of_mem x hs))
      simp [execLoop, ha, hrec]

theorem execLoop_first_fail {ε α : Type} (cb : String → Except ε α) (e : ε) :
    ∀ (l : List String) (i : ℕ) (hi : i < l.length),
      (∀ j (hj : j < i), ∃ a, cb (l.get ⟨j, lt_trans hj hi⟩) = .ok a) →
      cb (l.get ⟨i, hi⟩) = .error e →
      execLoop cb l = (l.take (i + 1), some e) := by
  intro l
  induction l with
  | nil => intro i hi; exact absurd hi (by simp)
  | cons x xs ih =>
      intro i hi hok hfail
      cases i with
      | zero =>
          simp only [List.get] at hfail
          simp [execLoop, hfail]
      | succ i' =>
          obtain ⟨a, ha⟩ := hok 0 (Nat.succ_pos i')
          simp only [List.get] at ha
          have hi' : i' < xs.length := Nat.lt_of_succ_lt_succ hi
          have hrec := ih i' hi'
            (fun j hj => by
              obtain ⟨a', ha'⟩ := hok (j + 1) (Nat.succ_lt_succ hj)
              exact ⟨a', ha'⟩)
            (by exact hfail)
          simp [execLoop, ha, hrec]

theorem count_map_executed (l : List String) (op : TraceOp)
    (hop : ∀ s, op ≠ .executed s) : (l.map TraceOp.executed).count op = 0 := by
  rw [List.count_eq_zero]
  intro hmem
  obtain ⟨s, _, heq⟩ := List.mem_map.mp hmem
  exact hop s heq.symm

theorem count_take_map_executed (l : List String) (op : TraceOp) (n : ℕ)
    (hop : ∀ s, op ≠ .executed s) : ((l.map TraceOp.executed).take n).count op = 0 :=
  Nat.le_zero.mp (count_map_executed l op hop ▸ (List.take_sublist n _).count_le op)

end AsyncBatcher

/-- C3: during one `flush` of a non-empty batch, if the execution callback
fails on the `i`-th merged statement after succeeding on the first `i`, the
trace shows the savepoint created once, rolled back once and never
released, and the callback was invoked exactly on the first `i + 1` merged
statements in order (never on any statement after the failing one); if all
merged statements succeed, the savepoint is created once, released once and
never rolled back. -/
theorem C3_savepoint_protocol :
    (∀ (ε α : Type) (batch : List String) (cb : String → Except ε α) (i : ℕ) (e : ε),
      batch ≠ [] →
      ∀ hi : i < (BasicMerger.merge batch).length,
      (∀ j (hj : j < i), ∃ a, cb ((BasicMerger.merge batch).get ⟨j, lt_trans hj hi⟩) = .ok a) →
      cb ((BasicMerger.merge batch).get ⟨i, hi⟩) = .error e →
      (AsyncBatcher.flush batch cb).2.2 =
        [.create_savepoint, .hook_fired .PRE_BATCH, .hook_fired .PRE_EXECUTE] ++
          ((BasicMerger.merge batch).take (i + 1)).map .executed ++
          [.rollback_to_savepoint, .hook_fired .ON_ERROR, .hook_fired .ON_ERROR] ∧
      (AsyncBatcher.flush batch cb).1 = .error e ∧
      (AsyncBatcher.flush batch cb).2.2.count .create_savepoint = 1 ∧
      (AsyncBatcher.flush batch cb).2.2.count .rollback_to_savepoint = 1 ∧
      (AsyncBatcher.flush batch cb).2.2.count .release_savepoint = 0) ∧
    (∀ (ε α : Type) (batch : List String) (cb : String → Except ε α),
      batch ≠ [] →
      (∀ s ∈ BasicMerger.merge batch, ∃ a, cb s = .ok a) →
      (AsyncBatcher.flush batch cb).2.2 =
        [.create_savepoint, .hook_fired .PRE_BATCH, .hook_fired .PRE_EXECUTE] ++
          (BasicMerger.merge batch).map .executed ++
          [.hook_fired .POST_EXECUTE, .hook_fired .POST_BATCH, .release_savepoint] ∧
      (AsyncBatcher.flush batch cb).2.2.count .create_savepoint = 1 ∧
      (AsyncBatcher.flush batch cb).2.2.count .release_savepoint = 1 ∧
      (AsyncBatcher.flush batch cb).2.2.count .rollback_to_savepoint = 0) := by
  constructor
  · intro ε α batch cb i e hb hi hok hfail
    have hexec := AsyncBatcher.execLoop_first_fail cb e (BasicMerger.merge batch) i hi hok hfail
    have htr : (AsyncBatcher.flush batch cb).2.2 =
        [.create_savepoint, .hook_fired .PRE_BATCH, .hook_fired .PRE_EXECUTE] ++
          ((BasicMerger.merge batch).take (i + 1)).map .executed ++
          [.rollback_to_savepoint, .hook_fired .ON_ERROR, .hook_fired .ON_ERROR] := by
      simp [AsyncBatcher.flush, hb, hexec]
    have hres : (AsyncBatcher.flush batch cb).1 = .error e := by
      simp [AsyncBatcher.flush, hb, hexec]
    refine ⟨htr, hres, ?_, ?_, ?_⟩ <;> rw [htr]
    · simp [List.count_append, List.count_cons,
        AsyncBatcher.count_take_map_executed _ AsyncBatcher.TraceOp.create_savepoint _
          (fun s => by simp)]
    · simp [List.count_append, List.count_cons,
        AsyncBatcher.count_take_map_executed _ AsyncBatcher.TraceOp.rollback_to_savepoint _
          (fun s => by simp)]
    · simp [List.count_append, List.count_cons,
        AsyncBatcher.count_take_map_executed _ AsyncBatcher.TraceOp.release_savepoint _
          (fun s => by simp)]
  · intro ε α batch cb hb hok
    have hexec := AsyncBatcher.execLoop_all_ok cb (BasicMerger.merge batch) hok
    have htr : (AsyncBatcher.flush batch cb).2.2 =
        [.create_savepoint, .hook_fired .PRE_BATCH, .hook_fired .PRE_EXECUTE] ++
          (BasicMerger.merge batch).map .executed ++
          [.hook_fired .POST_EXECUTE, .hook_fired .POST_BATCH, .release_savepoint] := by
      simp [AsyncBatcher.flush, hb, hexec]
    refine ⟨htr, ?_, ?_, ?_⟩ <;> rw [htr]
    · simp [List.count_append, List.count_cons,
        AsyncBatcher.count_map_executed _ AsyncBatcher.TraceOp.create_savepoint
          (fun s => by simp)]
    · simp [List.count_append, List.count_cons,
        AsyncBatcher.count_map_executed _ AsyncBatcher.TraceOp.release_savepoint
          (fun s => by simp)]
    · simp [List.count_append, List.count_cons,
        AsyncBatcher.count_map_executed _ AsyncBatcher.TraceOp.rollback_to_savepoint
          (fun s => by simp)]

/-- Witness for C3 at a concrete three-statement batch: the callback fails
on the 2nd of the 3 merged statements, so the 3rd is never executed, the
savepoint is rolled back once and never released; and a fully succeeding
batch releases the savepoint once. -/
theorem C3_witness :
    ((AsyncBatcher.flush ["SELECT a;", "SELECT b;", "SELECT c;"]
        (fun s => if s = "SELECT b;" then (.error 5 : Except ℕ Unit) else .ok ())).2.2.count
      .rollback_to_savepoint = 1 ∧
    (AsyncBatcher.flush ["SELECT a;", "SELECT b;", "SELECT c;"]
        (fun s => if s = "SELECT b;" then (.error 5 : Except ℕ Unit) else .ok ())).2.2.count
      .release_savepoint = 0) ∧
    (AsyncBatcher.flush ["SELECT a;", "SELECT b;", "SELECT c;"]
        (fun _ => (.ok () : Except ℕ Unit))).2.2.count .release_savepoint = 1 := by
  have h1 := C3_savepoint_protocol.1 ℕ Unit ["SELECT a;", "SELECT b;", "SELECT c;"]
    (fun s => if s = "SELECT b;" then (.error 5 : Except ℕ Unit) else .ok ()) 1 5
    (by decide) (by decide)
    (by
      intro j hj
      interval_cases j
      exact ⟨(), rfl⟩)
    rfl
  have h2 := C3_savepoint_protocol.2 ℕ Unit ["SELECT a;", "SELECT b;", "SELECT c;"]
    (fun _ => (.ok () : Except ℕ Unit)) (by decide)
    (fun s _ => ⟨(), rfl⟩)
  exact ⟨⟨h1.2.2.2.1, h1.2.2.2.2⟩, h2.2.2.1⟩

namespace UtilsMerger

theorem assignKey_mem :
    ∀ (groups : List (GKey × List String)) (k : GKey) (v : List String)
      (p : GKey × List String), p ∈ assignKey groups k v → p ∈ groups ∨ p = (k, v) := by
  intro groups k v
  induction groups with
  | nil => intro p hp; simp [assignKey] at hp; exact Or.inr hp
  | cons q rest ih =>
      obtain ⟨k0, v0⟩ := q
      intro p hp
      unfold assignKey at hp
      by_cases hk : k0 = k
      · rw [if_pos hk] at hp
        rcases List.mem_cons.mp hp with h | h
        · subst hk; exact Or.inr (by simp [h])
        · exact Or.inl (List.mem_cons_of_mem _ h)
      · rw [if_neg hk] at hp
        rcases List.mem_cons.mp hp with h | h
        · exact Or.inl (by simp [h])
        · rcases ih p h with h2 | h2
          · exact Or.inl (List.mem_cons_of_mem _ h2)
          · exact Or.inr h2

theorem findCompat_mem (stmt : String) :
    ∀ (groups groups2 : List (GKey × List String)),
      findCompat stmt groups = .ok (some groups2) →
      ∀ p ∈ groups2, ∀ s ∈ p.2, (∃ q ∈ groups, s ∈ q.2) ∨ s = stmt := by
  intro groups
  induction groups with
  | nil => intro g2 h; exact absurd h (by simp [findCompat])
  | cons kg rest ih =>
      obtain ⟨k, g⟩ := kg
      intro g2 h p hp s hs
      unfold findCompat at h
      cases hc : are_compatible (g.headD "") stmt with
      | error e => rw [hc] at h; cases h
      | ok c =>
          rw [hc] at h
          dsimp only at h
          by_cases hcc : c = true
          · rw [if_pos hcc] at h
            have hg2 := Option.some.inj (Except.ok.inj h)
            subst hg2
            rcases List.mem_cons.mp hp with hph | hph
            · subst hph
              rcases List.mem_append.mp hs with hsg | hsg
              · exact Or.inl ⟨(k, g), List.mem_cons_self _ _, hsg⟩
              · exact Or.inr (by simpa using hsg)
            · exact Or.inl ⟨p, List.mem_cons_of_mem _ hph, hs⟩
          · rw [if_neg hcc] at h
            cases hr : findCompat stmt rest with
            | error e => rw [hr] at h; cases h
            | ok r =>
                rw [hr] at h
                dsimp only at h
                cases r with
                | none => simp at h
                | some g2' =>
                    have hg2 := Option.some.inj (Except.ok.inj h)
                    subst hg2
                    rcases List.mem_cons.mp hp with hph | hph
                    · subst hph
                      exact Or.inl ⟨(k, g), List.mem_cons_self _ _, hs⟩
                    · rcases ih g2' hr p hph s hs with ⟨q, hq, hsq⟩ | heq
                      · exact Or.inl ⟨q, List.mem_cons_of_mem _ hq, hsq⟩
                      · exact Or.inr heq

theorem groupStep_mem (groups : List (GKey × List String)) (stmt : String)
    (groups2 : List (GKey × List String)) (h : groupStep groups stmt = .ok groups2) :
    ∀ p ∈ groups2, ∀ s ∈ p.2, (∃ q ∈ groups, s ∈ q.2) ∨ s = stmt := by
  unfold groupStep at h
  cases ht : extract_table_name stmt with
  | error e => rw [ht] at h; cases h
  | ok table =>
      rw [ht] at h
      dsimp only at h
      cases hf : findCompat stmt groups with
      | error e => rw [hf] at h; cases h
      | ok r =>
          rw [hf] at h
          cases r with
          | some g2 =>
              have := Except.ok.inj h
              subst this
              exact findCompat_mem stmt groups _ hf
          | none =>
              have := Except.ok.inj h
              subst this
              intro p hp s hs
              rcases assignKey_mem groups _ _ p hp with hpg | hpe
              · exact Or.inl ⟨p, hpg, hs⟩
              · subst hpe
                exact Or.inr (by simpa using hs)

theorem buildGroups_mem (P : String → Prop) :
    ∀ (stmts : List String) (groups groups' : List (GKey × List String)),
      buildGroups groups stmts = .ok groups' →
      (∀ p ∈ groups, ∀ s ∈ p.2, P s) → (∀ s ∈ stmts, P s) →
      ∀ p ∈ groups', ∀ s ∈ p.2, P s := by
  intro stmts
  induction stmts with
  | nil =>
      intro groups groups' h hg _
      unfold buildGroups at h
      have := Except.ok.inj h
      subst this
      exact hg
  | cons stmt rest ih =>
      intro groups groups' h hg hst
      unfold buildGroups at h
      cases hs : groupStep groups stmt with
      | error e => rw [hs] at h; cases h
      | ok groups2 =>
          rw [hs] at h
          dsimp only at h
          refine ih groups2 groups' h ?_ (fun s hsm => hst s (List.mem_cons_of_mem _ hsm))
          intro p hp s hsp
          rcases groupStep_mem groups stmt groups2 hs p hp s hsp with ⟨q, hq, hsq⟩ | heq
          · exact hg q hq s hsq
          · subst heq
            exact hst s (List.mem_cons_self _ _)

theorem groupEmit_bound (maxB : ℕ) (mergeRec : List String → Except Exc (List String))
    (Hrec : ∀ ss res, mergeRec ss = .ok res → ∀ o ∈ res, o.length ≤ maxB ∨ o ∈ ss)
    (g : List String) (out : List String) (h : groupEmit maxB mergeRec g = .ok out) :
    ∀ o ∈ out, o.length ≤ maxB ∨ o ∈ g := by
  unfold groupEmit at h
  cases hm : mergedOf g with
  | error e => rw [hm] at h; cases h
  | ok merged =>
      rw [hm] at h
      dsimp only at h
      by_cases hlen : maxB < merged.length
      · rw [if_pos hlen] at h
        by_cases hg1 : g.length = 1
        · rw [if_pos hg1] at h
          have := Except.ok.inj h
          subst this
          intro o ho
          obtain ⟨x, rfl⟩ := List.length_eq_one.mp hg1
          simp at ho
          subst ho
          exact Or.inr (by simp)
        · rw [if_neg hg1] at h
          cases ha : mergeRec (g.take (g.length / 2)) with
          | error e => rw [ha] at h; cases h
          | ok a =>
              rw [ha] at h
              dsimp only at h
              cases hb2 : mergeRec (g.drop (g.length / 2)) with
              | error e => rw [hb2] at h; cases h
              | ok b =>
                  rw [hb2] at h
                  dsimp only at h
                  have := Except.ok.inj h
                  subst this
                  intro o ho
                  rcases List.mem_append.mp ho with hoa | hob
                  · rcases Hrec _ a ha o hoa with hle | hin
                    · exact Or.inl hle
                    · exact Or.inr (List.take_subset _ _ hin)
                  · rcases Hrec _ b hb2 o hob with hle | hin
                    · exact Or.inl hle
                    · exact Or.inr (List.drop_subset _ _ hin)
      · rw [if_neg hlen] at h
        have := Except.ok.inj h
        subst this
        intro o ho
        simp at ho
        subst ho
        exact Or.inl (Nat.le_of_not_lt hlen)

theorem groupsGo_bound (maxB : ℕ) (mergeRec : List String → Except Exc (List String))
    (P : String → Prop)
    (Hrec : ∀ ss res, mergeRec ss = .ok res → ∀ o ∈ res, o.length ≤ maxB ∨ o ∈ ss) :
    ∀ (groups : List (GKey × List String)) (res : List String),
      groupsGo maxB mergeRec groups = .ok res →
      (∀ p ∈ groups, ∀ s ∈ p.2, P s) →
      ∀ o ∈ res, o.length ≤ maxB ∨ P o := by
  intro groups
  induction groups with
  | nil =>
      intro res h _
      unfold groupsGo at h
      have := Except.ok.inj h
      subst this
      intro o ho
      cases ho
  | cons kg rest ih =>
      obtain ⟨k, g⟩ := kg
      intro res h hP
      unfold groupsGo at h
      cases he : groupEmit maxB mergeRec g with
      | error e => rw [he] at h; cases h
      | ok out =>
          rw [he] at h
          dsimp only at h
          cases hmore : groupsGo maxB mergeRec rest with
          | error e => rw [hmore] at h; cases h
          | ok more =>
              rw [hmore] at h
              dsimp only at h
              have := Except.ok.inj h
              subst this
              intro o ho
              rcases List.mem_append.mp ho with hoo | hom
              · rcases groupEmit_bound maxB mergeRec Hrec g out he o hoo with hle | hin
                · exact Or.inl hle
                · exact Or.inr (hP (k, g) (List.mem_cons_self _ _) o hin)
              · exact ih more hmore (fun p hp => hP p (List.mem_cons_of_mem _ hp)) o hom

theorem mergeGo_bound (maxB : ℕ) :
    ∀ (fuel : ℕ) (stmts res : List String),
      mergeGo maxB fuel stmts = .ok res →
      ∀ o ∈ res, o.length ≤ maxB ∨ o ∈ stmts := by
  intro fuel
  induction fuel with
  | zero => intro stmts res h; cases h
  | succ fuel ih =>
      intro stmts res h
      unfold mergeGo at h
      by_cases hempty : stmts = []
      · rw [if_pos hempty] at h; cases h
      · rw [if_neg hempty] at h
        cases hv : validateAll stmts with
        | error e => rw [hv] at h; cases h
        | ok _ =>
            rw [hv] at h
            dsimp only at h
            cases hbld : buildGroups [] stmts with
            | error e => rw [hbld] at h; cases h
            | ok groups =>
                rw [hbld] at h
                dsimp only at h
                exact groupsGo_bound maxB _ (· ∈ stmts) (fun ss r hr => ih ss r hr)
                  groups res h
                  (buildGroups_mem (· ∈ stmts) stmts [] groups hbld (by simp) (fun s hs => hs))

end UtilsMerger

/-- C5 counterexample: the basic merger's `merge` never consults
`max_bytes`.  With the merger's `max_bytes = 50`, two compatible INSERTs of
47 bytes each are folded into one 71-byte statement that is neither within
the ceiling nor an original input statement. -/
theorem C5_counterexample :
    BasicMerger.merge
        ["INSERT INTO t (a) VALUES (11111111111111111111)",
         "INSERT INTO t (a) VALUES (22222222222222222222)"] =
      ["INSERT INTO t (a) VALUES (11111111111111111111), (22222222222222222222)"] ∧
    50 < utf8Len "INSERT INTO t (a) VALUES (11111111111111111111), (22222222222222222222)" ∧
    ("INSERT INTO t (a) VALUES (11111111111111111111), (22222222222222222222)" : String) ∉
      ["INSERT INTO t (a) VALUES (11111111111111111111)",
       "INSERT INTO t (a) VALUES (22222222222222222222)"] ∧
    utf8Len "INSERT INTO t (a) VALUES (11111111111111111111)" ≤ 50 ∧
    utf8Len "INSERT INTO t (a) VALUES (22222222222222222222)" ≤ 50 := by
  refine ⟨rfl, by decide, by decide, by decide, by decide⟩

/-- C5 amended: for the utils merger, every statement returned by `merge`
either has length at most `max_bytes` (Python `len`, characters) or is one
of the original input statements (the case of a group of one whose merged
form exceeds the ceiling, emitted unmerged rather than dropped); oversized
groups are halved recursively until this holds.  The basic merger provides
no such bound. -/
theorem C5_amended (maxB : ℕ) (stmts res : List String)
    (h : UtilsMerger.merge maxB stmts = .ok res) :
    ∀ o ∈ res, o.length ≤ maxB ∨ o ∈ stmts :=
  UtilsMerger.mergeGo_bound maxB (stmts.length + 1) stmts res h

/-- Witness for C5 amended at a concrete merge that splits an oversized
group. -/
theorem C5_witness :
    ("INSERT INTO t (a) VALUES (1111111111111111)" : String).length ≤ 50 ∨
      ("INSERT INTO t (a) VALUES (1111111111111111)" : String) ∈
        ["INSERT INTO t (a) VALUES (1111111111111111)",
         "INSERT INTO t (a) VALUES (2222222222222222)"] :=
  C5_amended 50
    ["INSERT INTO t (a) VALUES (1111111111111111)",
     "INSERT INTO t (a) VALUES (2222222222222222)"]
    ["INSERT INTO t (a) VALUES (1111111111111111)",
     "INSERT INTO t (a) VALUES (2222222222222222)"] rfl
    "INSERT INTO t (a) VALUES (1111111111111111)" (by decide)

namespace Batcher

theorem update_id (cfg : Config) (st : State) (s : String)
    (h : cfg.auto_adjust_for_columns = false ∨ st.column_count ≠ none ∨
      detect_column_count s = none) :
    update_adjustment_factor cfg st s = st := by
  unfold update_adjustment_factor
  rcases h with h | h | h
  · simp [h]
  · by_cases ha : cfg.auto_adjust_for_columns
    · cases hcc : st.column_count with
      | none => exact absurd hcc h
      | some n => simp [ha, hcc]
    · simp [ha]
  · by_cases ha : cfg.auto_adjust_for_columns
    · cases hcc : st.column_count <;> simp [ha, hcc, h]
    · simp [ha]

theorem sumBytes_dropLast_le (l : List String) : sumBytes l.dropLast ≤ sumBytes l := by
  cases l with
  | nil => simp [sumBytes]
  | cons x t =>
      have h := List.dropLast_append_getLast (l := x :: t) (by simp)
      have h2 : sumBytes ((x :: t).dropLast ++ [(x :: t).getLast (by simp)]) =
          sumBytes (x :: t).dropLast + utf8Len ((x :: t).getLast (by simp)) := by
        simp [sumBytes]
      calc sumBytes (x :: t).dropLast
          ≤ sumBytes (x :: t).dropLast + utf8Len ((x :: t).getLast (by simp)) :=
            Nat.le_add_right _ _
        _ = sumBytes ((x :: t).dropLast ++ [(x :: t).getLast (by simp)]) := h2.symm
        _ = sumBytes (x :: t) := by rw [h]

theorem sumBytes_append_single (l : List String) (s : String) :
    sumBytes (l ++ [s]) = sumBytes l + utf8Len s := by
  simp [sumBytes]

theorem flushRun_empty (st : State) (h : st.current_batch = []) :
    flushRun st = (st, 0, []) := by
  simp [flushRun, h]

theorem flushRun_nonempty (st : State) (h : st.current_batch ≠ []) :
    flushRun st = (reset st, st.current_batch.length, [.flushedBatch st.current_batch]) := by
  simp [flushRun, h]

theorem reset_fields (st : State) :
    (reset st).current_batch = [] ∧ (reset st).current_size = 0 ∧
    (reset st).column_count = st.column_count ∧
    (reset st).adjustment_factor = st.adjustment_factor :=
  ⟨rfl, rfl, rfl, rfl⟩

theorem processGo_bound (cfg : Config) (st0 : State) (stmts : List String) (A : ℤ)
    (hA : 0 < A) (hAdef : A = adjustedOf cfg st0.adjustment_factor)
    (Hp : ∀ st' : State, st'.column_count = st0.column_count → ∀ s ∈ stmts,
      update_adjustment_factor cfg st' s = st') :
    ∀ (l : List String) (st : State),
      (∀ s ∈ l, s ∈ stmts) →
      st.column_count = st0.column_count →
      st.adjustment_factor = st0.adjustment_factor →
      st.current_size = sumBytes st.current_batch →
      (st.current_size : ℤ) < A →
      ∀ B, FlushEvent.flushedBatch B ∈ (processGo cfg st l).2.2 →
        B ≠ [] ∧ (sumBytes B.dropLast : ℤ) < A := by
  intro l
  induction l with
  | nil =>
      intro st _ hcc haf hsum hsize B hB
      by_cases hbe : st.current_batch = []
      · rw [show processGo cfg st [] = flushRun st from rfl, flushRun_empty st hbe] at hB
        simp at hB
      · rw [show processGo cfg st [] = flushRun st from rfl, flushRun_nonempty st hbe] at hB
        simp at hB
        subst hB
        refine ⟨hbe, ?_⟩
        have h2 : (sumBytes st.current_batch.dropLast : ℤ) ≤ (st.current_size : ℤ) := by
          rw [hsum]
          exact_mod_cast sumBytes_dropLast_le st.current_batch
        exact lt_of_le_of_lt h2 hsize
  | cons s rest ih =>
      intro st hsub hcc haf hsum hsize B hB
      have hmem_s : s ∈ stmts := hsub s (List.mem_cons_self _ _)
      have hsub' : ∀ x ∈ rest, x ∈ stmts := fun x hx => hsub x (List.mem_cons_of_mem _ hx)
      have hupd : update_adjustment_factor cfg st s = st := Hp st hcc s hmem_s
      have hst1 : (if cfg.auto_adjust_for_columns && st.column_count = none then
          update_adjustment_factor cfg st s else st) = st := by
        split
        · exact hupd
        · rfl
      have hamb : get_adjusted_max_bytes cfg st = A := by
        unfold get_adjusted_max_bytes
        rw [haf, hAdef]
      rw [show processGo cfg st (s :: rest) =
        (let st1 := if cfg.auto_adjust_for_columns && st.column_count = none then
            update_adjustment_factor cfg st s else st
        if get_adjusted_max_bytes cfg st1 < (utf8Len s : ℤ) then
          let fr := flushRun st1
          let pr := processGo cfg fr.1 rest
          (pr.1, fr.2.1 + 1 + pr.2.1,
            fr.2.2 ++ [.oversizedSingle (normalizeStatement cfg s)] ++ pr.2.2)
        else
          let ad := add_statement cfg st1 s
          if ad.1 then
            let fr := flushRun ad.2
            let pr := processGo cfg fr.1 rest
            (pr.1, fr.2.1 + pr.2.1, fr.2.2 ++ pr.2.2)
          else
            processGo cfg ad.2 rest) from rfl] at hB
      rw [hst1] at hB
      by_cases hover : get_adjusted_max_bytes cfg st < (utf8Len s : ℤ)
      · rw [if_pos hover] at hB
        by_cases hbe : st.current_batch = []
        · rw [flushRun_empty st hbe] at hB
          dsimp only at hB
          simp only [List.nil_append, List.mem_append, List.mem_singleton] at hB
          rcases hB with hB | hB
          · exact absurd hB (by simp)
          · exact ih st hsub' hcc haf hsum hsize B hB
        · rw [flushRun_nonempty st hbe] at hB
          dsimp only at hB
          simp only [List.mem_append, List.mem_singleton] at hB
          rcases hB with (hB | hB) | hB
          · simp at hB
            subst hB
            refine ⟨hbe, ?_⟩
            have h2 : (sumBytes st.current_batch.dropLast : ℤ) ≤ (st.current_size : ℤ) := by
              rw [hsum]
              exact_mod_cast sumBytes_dropLast_le st.current_batch
            exact lt_of_le_of_lt h2 hsize
          · exact absurd hB (by simp)
          · exact ih (reset st) hsub' hcc haf (by simp [reset, sumBytes]) (by simpa [reset] using hA) B hB
      · rw [if_neg hover] at hB
        have hadd : add_statement cfg st s =
            (decide (get_adjusted_max_bytes cfg
                { st with
                    current_batch := st.current_batch ++ [normalizeStatement cfg s],
                    current_size := st.current_size + utf8Len (normalizeStatement cfg s) } ≤
              ((st.current_size + utf8Len (normalizeStatement cfg s) : ℕ) : ℤ)),
            { st with
                current_batch := st.current_batch ++ [normalizeStatement cfg s],
                current_size := st.current_size + utf8Len (normalizeStatement cfg s) }) := by
          unfold add_statement
          rw [hupd]
        rw [hadd] at hB
        dsimp only at hB
        have hA2 : get_adjusted_max_bytes cfg
            { st with
                current_batch := st.current_batch ++ [normalizeStatement cfg s],
                current_size := st.current_size + utf8Len (normalizeStatement cfg s) } = A := by
          unfold get_adjusted_max_bytes
          dsimp only
          rw [haf, hAdef]
        rw [hA2] at hB
        set st2 : State :=
          { st with
              current_batch := st.current_batch ++ [normalizeStatement cfg s],
              current_size := st.current_size + utf8Len (normalizeStatement cfg s) } with hst2
        by_cases hsf : A ≤ ((st.current_size + utf8Len (normalizeStatement cfg s) : ℕ) : ℤ)
        · rw [decide_eq_true hsf] at hB
          simp only [if_true] at hB
          have hbe2 : st2.current_batch ≠ [] := by
            rw [hst2]
            simp
          rw [flushRun_nonempty st2 hbe2] at hB
          dsimp only at hB
          simp only [List.mem_append, List.mem_singleton] at hB
          rcases hB with hB | hB
          · simp at hB
            subst hB
            constructor
            · simp
            · have hdl : (st.current_batch ++ [normalizeStatement cfg s]).dropLast =
                  st.current_batch := by
                simp
              rw [hdl]
              rw [← hsum]
              exact hsize
          · refine ih (reset st2) hsub' ?_ ?_ (by simp [reset, sumBytes]) (by simpa [reset] using hA) B hB
            · rw [hst2]; exact hcc
            · rw [hst2]; exact haf
        · rw [decide_eq_false hsf] at hB
          simp only [if_false, Bool.false_eq_true] at hB
          refine ih st2 hsub' ?_ ?_ ?_ ?_ B hB
          · rw [hst2]; exact hcc
          · rw [hst2]; exact haf
          · rw [hst2]
            dsimp only
            rw [sumBytes_append_single, hsum]
          · rw [hst2]
            dsimp only
            push_cast
            omega

end Batcher

namespace Batcher

theorem prescan_id (cfg : Config) (st0 : State) (stmts : List String)
    (Hp : ∀ st' : State, st'.column_count = st0.column_count → ∀ s ∈ stmts,
      update_adjustment_factor cfg st' s = st') :
    ∀ (l : List String) (st : State), (∀ s ∈ l, s ∈ stmts) →
      st.column_count = st0.column_count → prescan cfg st l = st := by
  intro l
  induction l with
  | nil => intro st _ _; rfl
  | cons s t ih =>
      intro st hsub hcc
      have hupd : update_adjustment_factor cfg st s = st :=
        Hp st hcc s (hsub s (List.mem_cons_self _ _))
      show (let st1 := update_adjustment_factor cfg st s
        if st1.column_count.isSome then st1 else prescan cfg st1 t) = st
      rw [hupd]
      by_cases hsome : st.column_count.isSome
      · simp [hsome]
      · simp only [hsome, if_false, Bool.false_eq_true]
        exact ih st (fun x hx => hsub x (List.mem_cons_of_mem _ hx)) hcc

end Batcher

/-- C1 counterexample: with `max_bytes = 10` and two 6-byte statements
(neither oversized on its own, adjustment factor 1 throughout), the single
flushed batch holds both statements and totals 12 bytes, exceeding the
adjusted ceiling of 10. -/
theorem C1_counterexample :
    (Batcher.process_statements { Batcher.defaultConfig with max_bytes := 10 }
        Batcher.initialState ["aaaaa;", "aaaaa;"]).2.2 =
      [Batcher.FlushEvent.flushedBatch ["aaaaa;", "aaaaa;"]] ∧
    Batcher.get_adjusted_max_bytes { Batcher.defaultConfig with max_bytes := 10 }
      (Batcher.process_statements { Batcher.defaultConfig with max_bytes := 10 }
        Batcher.initialState ["aaaaa;", "aaaaa;"]).1 = 10 ∧
    Batcher.get_adjusted_max_bytes { Batcher.defaultConfig with max_bytes := 10 }
      Batcher.initialState = 10 ∧
    (Batcher.sumBytes ["aaaaa;", "aaaaa;"] : ℤ) = 12 ∧
    (utf8Len "aaaaa;" : ℤ) ≤ 10 ∧
    (["aaaaa;", "aaaaa;"] : List String).length = 2 := by
  refine ⟨by decide, by decide, by decide, by decide, by decide, by decide⟩

/-- C1 amended: as long as the adjusted ceiling cannot change during the
run (auto-adjustment off, or a column count already established, or no
statement detected as a column-bearing INSERT) and the ceiling is positive,
every batch flushed by `process_statements` is non-empty and exceeds the
adjusted ceiling by less than its final statement: the batch without its
last statement is strictly below `adjustedMaxBytes` (the statement is
appended before the ceiling test, so the full batch may exceed the ceiling
by up to the final statement's size; oversized statements still bypass
batching and are executed alone). -/
theorem C1_amended (cfg : Batcher.Config) (st0 : Batcher.State) (stmts : List String)
    (hb : st0.current_batch = []) (hs0 : st0.current_size = 0)
    (hf : Batcher.FactorFrozen cfg st0 stmts)
    (hA : 0 < Batcher.get_adjusted_max_bytes cfg st0) :
    ∀ B, Batcher.FlushEvent.flushedBatch B ∈ (Batcher.process_statements cfg st0 stmts).2.2 →
      B ≠ [] ∧ (Batcher.sumBytes B.dropLast : ℤ) < Batcher.get_adjusted_max_bytes cfg st0 := by
  have Hp : ∀ st' : Batcher.State, st'.column_count = st0.column_count → ∀ s ∈ stmts,
      Batcher.update_adjustment_factor cfg st' s = st' := by
    intro st' hcc s hsm
    rcases hf with h | h | h
    · exact Batcher.update_id cfg st' s (Or.inl h)
    · exact Batcher.update_id cfg st' s (Or.inr (Or.inl (hcc ▸ h)))
    · exact Batcher.update_id cfg st' s (Or.inr (Or.inr (h s hsm)))
  unfold Batcher.process_statements
  have hpre : (if cfg.auto_adjust_for_columns && stmts.length > 0 then
      Batcher.prescan cfg st0 (stmts.take 5) else st0) = st0 := by
    split
    · exact Batcher.prescan_id cfg st0 stmts Hp (stmts.take 5) st0
        (fun s hs => List.take_subset 5 stmts hs) rfl
    · rfl
  rw [hpre]
  exact Batcher.processGo_bound cfg st0 stmts (Batcher.get_adjusted_max_bytes cfg st0) hA rfl
    Hp stmts st0 (fun s hs => hs) rfl rfl (by rw [hs0, hb]; rfl)
    (by rw [hs0]; exact_mod_cast hA)

/-- Witness for C1 amended: a run of one small non-INSERT statement whose
final flush yields a singleton batch within the ceiling. -/
theorem C1_witness :
    (["aaaa;"] : List String) ≠ [] ∧
    (Batcher.sumBytes (["aaaa;"] : List String).dropLast : ℤ) <
      Batcher.get_adjusted_max_bytes { Batcher.defaultConfig with max_bytes := 10 }
        Batcher.initialState :=
  C1_amended { Batcher.defaultConfig with max_bytes := 10 } Batcher.initialState ["aaaa;"]
    rfl rfl (Or.inr (Or.inr (by decide))) (by decide) ["aaaa;"] (by decide)
